import Mathlib

/-!
Verification of the Markdown-to-HTML content pipeline of a static
personal-website repository (main entry: js/main.js, plus the standalone
timeline.js module).  The JavaScript functions are shallowly embedded as
executable Lean functions on character lists / strings; DOM state is
modelled as a record of optional container contents; the module-level
configuration cache is modelled as explicit state passing.
-/

namespace Site

/-- Boolean test that `p` is an initial run of `l` (used for
`String.prototype.startsWith` checks and literal pattern look-ahead). -/
def leadsWith : List Char → List Char → Bool
  | [], _ => true
  | _ :: _, [] => false
  | p :: ps, c :: cs => p == c && leadsWith ps cs

/-!
## Inline regex substitutions (js/main.js, `formatInlineMarkdown`, lines 92-97)

Each JavaScript `String.prototype.replace` with a global regex is embedded as a
left-to-right scanner: at each position it attempts the (deterministic,
backtracking-free) match the regex engine would attempt, emits the replacement
and resumes after the match on success, and advances one character on failure.
-/

/-- `text.replace(/\[([^\]]+)\]\(([^)]+)\)/g, '<a href="$2" target="_blank">$1</a>')` -/
def replaceLinks : List Char → List Char
  | [] => []
  | '[' :: rest =>
    let txt := rest.takeWhile (· ≠ ']')
    match h1 : rest.dropWhile (· ≠ ']') with
    | ']' :: '(' :: rest2 =>
      let url := rest2.takeWhile (· ≠ ')')
      match h2 : rest2.dropWhile (· ≠ ')') with
      | ')' :: tail =>
        if txt.isEmpty || url.isEmpty then '[' :: replaceLinks rest
        else "<a href=\"".data ++ url ++ "\" target=\"_blank\">".data ++ txt
              ++ "</a>".data ++ replaceLinks tail
      | _ => '[' :: replaceLinks rest
    | _ => '[' :: replaceLinks rest
  | c :: rest => c :: replaceLinks rest
termination_by l => l.length
decreasing_by
  all_goals simp only [List.length_cons]
  any_goals omega
  have ha : (rest.dropWhile (· ≠ ']')).length ≤ rest.length :=
    (List.dropWhile_sublist _).length_le
  have hb : (rest2.dropWhile (· ≠ ')')).length ≤ rest2.length :=
    (List.dropWhile_sublist _).length_le
  rw [h1] at ha
  rw [h2] at hb
  simp only [List.length_cons] at ha hb
  omega

/-- `text.replace(/\*\*([^*]+)\*\*/g, '<strong>$1</strong>')` -/
def replaceBold : List Char → List Char
  | [] => []
  | '*' :: '*' :: rest =>
    let content := rest.takeWhile (· ≠ '*')
    match h1 : rest.dropWhile (· ≠ '*') with
    | '*' :: '*' :: tail =>
      if content.isEmpty then '*' :: replaceBold ('*' :: rest)
      else "<strong>".data ++ content ++ "</strong>".data ++ replaceBold tail
    | _ => '*' :: replaceBold ('*' :: rest)
  | c :: rest => c :: replaceBold rest
termination_by l => l.length
decreasing_by
  all_goals simp only [List.length_cons]
  any_goals omega
  have ha : (rest.dropWhile (· ≠ '*')).length ≤ rest.length :=
    (List.dropWhile_sublist _).length_le
  rw [h1] at ha
  simp only [List.length_cons] at ha
  omega

/-- `html.replace(/__([^_]+)__/g, '<strong>$1</strong>')` (parseMarkdown line 121). -/
def replaceUnderscoreBold : List Char → List Char
  | [] => []
  | '_' :: '_' :: rest =>
    let content := rest.takeWhile (· ≠ '_')
    match h1 : rest.dropWhile (· ≠ '_') with
    | '_' :: '_' :: tail =>
      if content.isEmpty then '_' :: replaceUnderscoreBold ('_' :: rest)
      else "<strong>".data ++ content ++ "</strong>".data ++ replaceUnderscoreBold tail
    | _ => '_' :: replaceUnderscoreBold ('_' :: rest)
  | c :: rest => c :: replaceUnderscoreBold rest
termination_by l => l.length
decreasing_by
  all_goals simp only [List.length_cons]
  any_goals omega
  have ha : (rest.dropWhile (· ≠ '_')).length ≤ rest.length :=
    (List.dropWhile_sublist _).length_le
  rw [h1] at ha
  simp only [List.length_cons] at ha
  omega

/-- `text.replace(/\*([^*]+)\*/g, '<em>$1</em>')` -/
def replaceItalic : List Char → List Char
  | [] => []
  | '*' :: rest =>
    let content := rest.takeWhile (· ≠ '*')
    match h1 : rest.dropWhile (· ≠ '*') with
    | '*' :: tail =>
      if content.isEmpty then '*' :: replaceItalic rest
      else "<em>".data ++ content ++ "</em>".data ++ replaceItalic tail
    | _ => '*' :: replaceItalic rest
  | c :: rest => c :: replaceItalic rest
termination_by l => l.length
decreasing_by
  all_goals simp only [List.length_cons]
  any_goals omega
  have ha : (rest.dropWhile (· ≠ '*')).length ≤ rest.length :=
    (List.dropWhile_sublist _).length_le
  rw [h1] at ha
  simp only [List.length_cons] at ha
  omega

/-- js/main.js lines 92-97: links first, then bold, then italic. -/
def formatInlineMarkdownL (l : List Char) : List Char :=
  replaceItalic (replaceBold (replaceLinks l))

/-- String-level wrapper for `formatInlineMarkdown`. -/
def formatInlineMarkdown (s : String) : String :=
  ⟨formatInlineMarkdownL s.data⟩

/-!
## Block formatter (js/main.js, `parseMarkdown`, lines 105-141)
-/

/-- Closing delimiter of a frontmatter block: the literal `---\n`. -/
def fmClose : List Char := ['-', '-', '-', '\n']

/-- Leftmost occurrence of `---\n`; returns the characters after it.
Embeds the lazy part `[\s\S]*?---\n` of the frontmatter regex. -/
def fmSearch : List Char → Option (List Char)
  | [] => none
  | l@(_ :: rest) => if leadsWith fmClose l then some (l.drop 4) else fmSearch rest

/-- `markdown.replace(/^---[\s\S]*?---\n/, '')` (line 107): a non-global regex
anchored at the string start, with a lazy middle, so the shortest prefix of the
form `---` ++ X ++ `---\n` is removed when one exists. -/
def stripFrontmatter (l : List Char) : List Char :=
  match l with
  | '-' :: '-' :: '-' :: rest =>
    match fmSearch rest with
    | some tail => tail
    | none => l
  | _ => l

/-- `html.replace(/^### (.*$)/gim, '<h3>$1</h3>')` acting on one line. -/
def h3Line (line : List Char) : List Char :=
  match line with
  | '#' :: '#' :: '#' :: ' ' :: rest => "<h3>".data ++ rest ++ "</h3>".data
  | _ => line

/-- `html.replace(/^## (.*$)/gim, '<h2>$1</h2>')` acting on one line. -/
def h2Line (line : List Char) : List Char :=
  match line with
  | '#' :: '#' :: ' ' :: rest => "<h2>".data ++ rest ++ "</h2>".data
  | _ => line

/-- `html.replace(/^# (.*$)/gim, '<h1>$1</h1>')` acting on one line. -/
def h1Line (line : List Char) : List Char :=
  match line with
  | '#' :: ' ' :: rest => "<h1>".data ++ rest ++ "</h1>".data
  | _ => line

/-- Apply `f` to every newline-separated line.  A `gim`-flagged regex anchored
with `^`/`$` and whose matches cannot span a newline acts exactly line by
line, so each heading substitution is `mapLines` of its per-line action. -/
def mapLines (f : List Char → List Char) (l : List Char) : List Char :=
  let line := l.takeWhile (· ≠ '\n')
  match h1 : l.dropWhile (· ≠ '\n') with
  | [] => f line
  | _ :: rest => f line ++ '\n' :: mapLines f rest
termination_by l.length
decreasing_by
  have ha : (l.dropWhile (· ≠ '\n')).length ≤ l.length :=
    (List.dropWhile_sublist _).length_le
  rw [h1] at ha
  simp only [List.length_cons] at ha
  omega

/-- Lines 112-114: `###`, then `##`, then `#`. -/
def applyHeadings (l : List Char) : List Char :=
  mapLines h1Line (mapLines h2Line (mapLines h3Line l))

/-- Lines 117-124: links, then `**` bold, then `__` bold, then `*` italic. -/
def inlinePasses (l : List Char) : List Char :=
  replaceItalic (replaceUnderscoreBold (replaceBold (replaceLinks l)))

/-- Headings (112-114) followed by the inline substitutions (117-124). -/
def convertBody (l : List Char) : List Char :=
  inlinePasses (applyHeadings l)

/-- Scanner for `html.split(/\n\n+/)`: `acc` is the piece read so far; on a
run of two or more newlines the piece is closed, the whole run is consumed
(the greedy `\n+`), and a fresh piece starts. -/
def splitBlocksAux (acc : List Char) : List Char → List (List Char)
  | '\n' :: '\n' :: rest => acc :: splitBlocksAux [] (rest.dropWhile (· = '\n'))
  | c :: rest => splitBlocksAux (acc ++ [c]) rest
  | [] => [acc]
termination_by l => l.length
decreasing_by
  · have ha : (rest.dropWhile (· = '\n')).length ≤ rest.length :=
      (List.dropWhile_sublist _).length_le
    simp only [List.length_cons]
    omega
  · simp only [List.length_cons]
    omega

/-- `html.split(/\n\n+/)` (line 127). -/
def splitBlocks (l : List Char) : List (List Char) :=
  splitBlocksAux [] l

/-- JavaScript `String.prototype.trim` whitespace test (ASCII range; the
blog content never contains the exotic Unicode space characters). -/
def isJsWS (c : Char) : Bool :=
  c = ' ' || c = '\t' || c = '\n' || c = '\r' ||
  c = '\x0b' || c = '\x0c'

/-- `block.trim()` (line 129). -/
def trimJs (l : List Char) : List Char :=
  ((l.dropWhile isJsWS).reverse.dropWhile isJsWS).reverse

/-- Lines 132-134: `block.startsWith('<h') || block.startsWith('<figure') ||
block.startsWith('<ul') || block.startsWith('<ol') || block.startsWith('</')`. -/
def isBlockTagStart (l : List Char) : Bool :=
  leadsWith "<h".data l || leadsWith "<figure".data l ||
  leadsWith "<ul".data l || leadsWith "<ol".data l || leadsWith "</".data l

/-- Lines 128-138: trim the block, drop empties, keep blocks that already
start with a block-level tag, wrap the rest in a paragraph element. -/
def wrapBlock (b : List Char) : List Char :=
  let t := trimJs b
  if t.isEmpty then []
  else if isBlockTagStart t then t
  else "<p>".data ++ t ++ "</p>".data

/-- Conversion of a frontmatter-free document body: lines 109-140 of
`parseMarkdown` after the frontmatter strip. -/
def renderBody (l : List Char) : List Char :=
  List.intercalate ['\n'] ((splitBlocks (convertBody l)).map wrapBlock)

/-- `parseMarkdown` (lines 105-141) on character lists. -/
def parseMarkdownL (l : List Char) : List Char :=
  renderBody (stripFrontmatter l)

/-- String-level wrapper for `parseMarkdown`. -/
def parseMarkdown (s : String) : String :=
  ⟨parseMarkdownL s.data⟩

/-!
## Timeline loader (js/main.js, `loadTimeline`, lines 188-245)

Date parsing (`new Date(...)`, `getFullYear`) is a browser interface; an item
carries the numeric value and the year of its parsed start date, and the year
of its parsed end date, as fields.
-/

/-- One timeline YAML entry, with the browser's date-parse results attached. -/
structure TimelineItem where
  /-- Numeric value of `new Date(item.start_date)` (milliseconds). -/
  start_value : Int
  /-- `new Date(item.start_date).getFullYear()`. -/
  start_year : Int
  /-- The raw `end_date` field; `none` when the field is absent. -/
  end_date : Option String
  /-- `new Date(item.end_date).getFullYear()` (used only on the date branch). -/
  end_year : Int
  description : Option String
  url : Option String
  logo : String
  organization : String
deriving Repr, DecidableEq

/-- JavaScript truthiness of an optional string field
(`undefined` and `''` are falsy). -/
def truthy : Option String → Bool
  | none => false
  | some s => !s.isEmpty

/-- Comparator-induced order of `timeline.sort((a, b) => dateB - dateA)`:
`a` may precede `b` exactly when the comparator is ≤ 0. -/
def timelineLe (a b : TimelineItem) : Bool :=
  b.start_value ≤ a.start_value

/-- Lines 196-200.  `Array.prototype.sort` is stable (ES2019), so with this
consistent comparator it computes exactly the stable descending sort. -/
def sortTimeline (items : List TimelineItem) : List TimelineItem :=
  items.mergeSort timelineLe

/-- `toLowerCase` restricted to the character-wise map (the `end_date`
strings are plain ASCII). -/
def jsToLower (s : String) : String :=
  ⟨s.data.map Char.toLower⟩

/-- Lines 206-214: `''` when `end_date` is falsy, `'Present'` when it equals
`'present'` case-insensitively, else the parsed end year. -/
def endYearText (item : TimelineItem) : String :=
  match item.end_date with
  | none => ""
  | some e =>
    if e.isEmpty then ""
    else if jsToLower e = "present" then "Present"
    else toString item.end_year

/-- Line 216: `` endYear ? `${startYear} - ${endYear}` : `${startYear} -` ``. -/
def yearRange (item : TimelineItem) : String :=
  let ey := endYearText item
  if ey.isEmpty then toString item.start_year ++ " -"
  else toString item.start_year ++ " - " ++ ey

/-- Lines 219-222: inline markdown on the description, then global
replacement of `\n\n` by a paragraph break. -/
def timelineDescription (item : TimelineItem) : String :=
  (formatInlineMarkdown (item.description.getD "")).replace "\n\n"
    "</p><p class=\"timeline-description\">"

/-- Lines 225-227. -/
def logoHTML (item : TimelineItem) : String :=
  if truthy item.url then
    "<a href=\"" ++ item.url.getD "" ++ "\" target=\"_blank\" class=\"timeline-logo-link\"><img src=\""
      ++ item.logo ++ "\" alt=\"" ++ item.organization ++ "\" class=\"timeline-logo\"></a>"
  else
    "<img src=\"" ++ item.logo ++ "\" alt=\"" ++ item.organization
      ++ "\" class=\"timeline-logo\">"

/-- Template literal of lines 229-238. -/
def timelineItemHTML (item : TimelineItem) : String :=
  "\n            <div class=\"timeline-item\">\n                <div class=\"timeline-dot\"></div>\n                <div class=\"timeline-year\">"
    ++ yearRange item
    ++ "</div>\n                "
    ++ logoHTML item
    ++ "\n                <div class=\"timeline-content\">\n                    <p class=\"timeline-description\">"
    ++ timelineDescription item
    ++ "</p>\n                </div>\n            </div>\n            "

/-!
## DOM model

Each render target is `none` when `document.getElementById` finds no element
and `some s` when the element is present with content `s`.  Every loader is a
total state transformer on this record; absence of exceptions on the missing-
target path is modelled by totality together with the guard returning the
state unchanged.
-/

/-- The five render-target containers the section loaders write to. -/
structure Dom where
  timelineList : Option String
  mediaList : Option String
  publicationsList : Option String
  blogList : Option String
  profileSocials : Option String
deriving Repr, DecidableEq

/-- `loadTimeline` (lines 188-245): guard `if (!listContainer || !timeline)
return;`, then sort, render, and assign the container's content. -/
def loadTimeline (timeline : Option (List TimelineItem)) (dom : Dom) : Dom :=
  match dom.timelineList, timeline with
  | some _, some items =>
    let html := String.join ((sortTimeline items).map timelineItemHTML)
    { dom with timelineList := some html }
  | _, _ => dom

/-!
## Standalone timeline module (timeline.js, lines 2-61)

Same rendering, but the guard checks only the container (a failed fetch is
handled by the surrounding catch), and the items are appended to the
container's existing content one at a time via `innerHTML +=`.
-/

/-- timeline.js lines 33-38: the inline substitutions applied directly
(links, bold, italic — same chain as `formatInlineMarkdown`), then the
paragraph-break replacement. -/
def timelineDescriptionStandalone (item : TimelineItem) : String :=
  (formatInlineMarkdown (item.description.getD "")).replace "\n\n"
    "</p><p class=\"timeline-description\">"

/-- `loadTimeline` of timeline.js (lines 2-61), with `timeline = none`
modelling a fetch/parse failure caught before the guard is reached. -/
def loadTimelineStandalone (timeline : Option (List TimelineItem)) (dom : Dom) : Dom :=
  match timeline with
  | none => dom
  | some items =>
    match dom.timelineList with
    | none => dom
    | some existing =>
      let html := String.join ((sortTimeline items).map timelineItemHTML)
      { dom with timelineList := some (existing ++ html) }

/-!
## Media loader (js/main.js, `loadMedia`, lines 258-297)
-/

/-- One media YAML entry. -/
structure MediaItem where
  video_id : String
  /-- Numeric timestamp; `none` when absent (and `some 0` is falsy too). -/
  timestamp : Option Nat
  title : String
  description : String
deriving Repr, DecidableEq

/-- Lines 266-268. -/
def mediaVideoUrl (item : MediaItem) : String :=
  match item.timestamp with
  | some t =>
    if t ≠ 0 then
      "https://www.youtube.com/embed/" ++ item.video_id ++ "?start=" ++ toString t
    else "https://www.youtube.com/embed/" ++ item.video_id
  | none => "https://www.youtube.com/embed/" ++ item.video_id

/-- Template literal of lines 274-289. -/
def mediaItemHTML (item : MediaItem) : String :=
  "\n            <div class=\"media-item\">\n                <div class=\"media-thumbnail\">\n                    <iframe \n                        src=\""
    ++ mediaVideoUrl item
    ++ "\" \n                        title=\""
    ++ item.title
    ++ "\"\n                        allow=\"accelerometer; autoplay; clipboard-write; encrypted-media; gyroscope; picture-in-picture\" \n                        allowfullscreen>\n                    </iframe>\n                </div>\n                <div class=\"media-info\">\n                    <h3>"
    ++ formatInlineMarkdown item.title
    ++ "</h3>\n                    <p>"
    ++ formatInlineMarkdown item.description
    ++ "</p>\n                </div>\n            </div>\n            "

/-- `loadMedia` (lines 258-297): guard `if (!container || !mediaItems)
return;`, then render and assign. -/
def loadMedia (mediaItems : Option (List MediaItem)) (dom : Dom) : Dom :=
  match dom.mediaList, mediaItems with
  | some _, some items =>
    { dom with mediaList := some (String.join (items.map mediaItemHTML)) }
  | _, _ => dom

/-!
## Publications loader (js/main.js, `loadPublications`, lines 484-534)
-/

/-- One publication YAML entry. -/
structure Publication where
  title : String
  authors : String
  venue : String
  conference : String
  paper : Option String
  link : Option String
  code : Option String
  poster : Option String
  slides : Option String
  video : Option String
  demo : Option String
  image : String
deriving Repr, DecidableEq

/-- JavaScript `a || b` on two optional string fields (`''` falsy). -/
def jsOr (a b : Option String) : Option String :=
  if truthy a then a else b

/-- Template interpolation `${v}` of an optional string value
(`undefined` prints as `"undefined"`). -/
def jsShow : Option String → String
  | some s => s
  | none => "undefined"

/-- `\b`-boundary test: JavaScript word characters are `[A-Za-z0-9_]`. -/
def isWordChar (c : Char) : Bool :=
  c.isAlphanum || c = '_'

/-- `pub.authors.replace(/\bF\. Fehr\b/g, '<strong>F. Fehr</strong>')`
(line 512); `prev` is the character before the current position, for the
leading word-boundary test. -/
def replaceFehr (prev : Option Char) : List Char → List Char
  | 'F' :: '.' :: ' ' :: 'F' :: 'e' :: 'h' :: 'r' :: rest =>
    if (prev.all fun c => !isWordChar c) && (rest.head?.all fun c => !isWordChar c) then
      "<strong>F. Fehr</strong>".data ++ replaceFehr (some 'r') rest
    else 'F' :: replaceFehr (some 'F') ('.' :: ' ' :: 'F' :: 'e' :: 'h' :: 'r' :: rest)
  | c :: rest => c :: replaceFehr (some c) rest
  | [] => []
termination_by l => l.length
decreasing_by
  all_goals simp only [List.length_cons]
  all_goals omega

/-- Lines 493-509: resource buttons in fixed order, filtered by truthiness. -/
def pubButtonsHTML (pub : Publication) : String :=
  let buttons : List (String × Option String) :=
    [("Paper", jsOr pub.paper pub.link), ("Code", pub.code), ("Poster", pub.poster),
     ("Slides", pub.slides), ("Video", pub.video), ("Demo", pub.demo)]
  let available := buttons.filter fun b => truthy b.2
  if available.length > 0 then
    "<div class=\"pub-buttons\">"
      ++ String.join (available.map fun b =>
          "<a href=\"" ++ b.2.getD "" ++ "\" class=\"pub-button\" target=\"_blank\" onclick=\"event.stopPropagation()\">"
            ++ b.1 ++ "</a>")
      ++ "</div>"
  else ""

/-- Template literal of lines 514-527. -/
def publicationHTML (pub : Publication) : String :=
  "\n            <div class=\"publication\" onclick=\"window.open('"
    ++ jsShow (jsOr pub.paper pub.link)
    ++ "', '_blank')\">\n                <div class=\"pub-image\">\n                    <img src=\""
    ++ pub.image
    ++ "\" alt=\""
    ++ pub.title
    ++ "\">\n                </div>\n                <div class=\"pub-description\">\n                    <h2>"
    ++ pub.title
    ++ "</h2>\n                    <p>"
    ++ String.mk (replaceFehr none pub.authors.data)
    ++ "</p>\n                    <p>"
    ++ pub.venue
    ++ "</p>\n                    <p><b class='pub-conference'>"
    ++ pub.conference
    ++ "</b></p>\n                    "
    ++ pubButtonsHTML pub
    ++ "\n                </div>\n            </div>\n            "

/-- `loadPublications` (lines 484-534). -/
def loadPublications (publications : Option (List Publication)) (dom : Dom) : Dom :=
  match dom.publicationsList, publications with
  | some _, some pubs =>
    { dom with publicationsList := some (String.join (pubs.map publicationHTML)) }
  | _, _ => dom

/-!
## Blog-list loader (js/main.js, `loadBlogs`, lines 540-570)

`formatDate` delegates to `Intl.DateTimeFormat` (a browser interface); it is
passed in as an abstract function.
-/

/-- One blog-index YAML entry. -/
structure BlogEntry where
  id : String
  title : String
  date : String
  excerpt : String
  thumbnail : String
deriving Repr, DecidableEq

/-- Template literal of lines 550-563. -/
def blogCardHTML (fmtDate : String → String) (blog : BlogEntry) : String :=
  "\n            <a href=\"blogs.html?id="
    ++ blog.id
    ++ "\" style=\"text-decoration:none;\">\n            <div class=\"blog-post\">\n                <div class=\"blog-image\">\n                    <img src=\""
    ++ blog.thumbnail
    ++ "\" alt=\""
    ++ blog.title
    ++ "\">\n                </div>\n                <div class=\"blog-description\">\n                    <h2>"
    ++ blog.title
    ++ "</h2>\n                    <p class=\"blog-date\">"
    ++ fmtDate blog.date
    ++ "</p>\n                    <p>"
    ++ blog.excerpt
    ++ "</p>\n                </div>\n            </div>\n            </a>\n            "

/-- `loadBlogs` (lines 540-570). -/
def loadBlogs (fmtDate : String → String) (blogs : Option (List BlogEntry)) (dom : Dom) : Dom :=
  match dom.blogList, blogs with
  | some _, some bs =>
    { dom with blogList := some (String.join (bs.map (blogCardHTML fmtDate))) }
  | _, _ => dom

/-!
## Social-links loader (js/main.js, `loadSocialLinks`, lines 450-478)
-/

/-- One entry of `config.contacts`. -/
structure Contact where
  name : String
  url : String
  icon : String
  is_image : Bool
deriving Repr, DecidableEq

/-- The parts of the site configuration the modelled loaders read. -/
structure Config where
  contacts : Option (List Contact)
deriving Repr, DecidableEq

/-- Serialization of the anchor element built in lines 461-471
(attributes in assignment order; `appendChild` appends it). -/
def socialLinkHTML (c : Contact) : String :=
  "<a href=\"" ++ c.url ++ "\" target=\"_blank\" class=\"social-link\" title=\"" ++ c.name ++ "\">"
    ++ (if c.is_image then
          "<img src=\"" ++ c.icon ++ "\" alt=\"" ++ c.name ++ "\" class=\"social-icon-img\">"
        else
          "<span class=\"social-icon\">" ++ c.icon ++ "</span>")
    ++ "</a>"

/-- `loadSocialLinks` (lines 450-478): guards `if (!config) return;` and
`if (!socialsContainer || !contacts) return;`, then appends one link per
contact to the container. -/
def loadSocialLinks (config : Option Config) (dom : Dom) : Dom :=
  match config with
  | none => dom
  | some cfg =>
    match dom.profileSocials, cfg.contacts with
    | some existing, some cs =>
      let html := String.join (cs.map socialLinkHTML)
      { dom with profileSocials := some (existing ++ html) }
    | _, _ => dom

/-!
## Configuration cache (js/main.js, lines 17-37)

`loadConfig` is modelled as one step of a state machine whose state is the
module-level `siteConfig` cache.  `fetchParse` is the value the fetch+parse
of `content/site/config.yaml` would produce on this call (`none` for a
failed fetch or a parse yielding nothing); the configuration file is fixed
over a run, so every call sees the same `fetchParse`.
-/

/-- One call of `loadConfig`: returns (result, new cache state, whether a
fetch was performed). -/
def loadConfig {Cfg : Type} (fetchParse : Option Cfg) (siteConfig : Option Cfg) :
    Option Cfg × Option Cfg × Bool :=
  match siteConfig with
  | some c => (some c, some c, false)
  | none =>
    match fetchParse with
    | some c => (some c, some c, true)
    | none => (none, none, true)

/-- Cache state after `n` successive `loadConfig` calls of a run. -/
def loadConfigRun {Cfg : Type} (fetchParse : Option Cfg) : Nat → Option Cfg
  | 0 => none
  | n + 1 => (loadConfig fetchParse (loadConfigRun fetchParse n)).2.1

/-!
## Table-of-contents generator (js/main.js, `generateTableOfContents`,
lines 781-845)

`blogBody.querySelectorAll('h2, h3')` yields the document-order list of
level-2/3 headings; each heading is given the id `section-<index>` and one
linked outline entry.
-/

/-- A heading element found in the rendered blog body. -/
structure Heading where
  /-- 2 for `<h2>`, 3 for `<h3>`. -/
  level : Nat
  text : String
deriving Repr, DecidableEq

/-- One outline entry together with the id assigned to its heading. -/
structure TocEntry where
  id : String
  href : String
  text : String
  /-- `<h3>` entries are indented (lines 809-812). -/
  indented : Bool
deriving Repr, DecidableEq

/-- Line 799: `` `section-${index}` ``. -/
def secId (i : Nat) : String :=
  "section-" ++ toString i

/-- The `headings.forEach((heading, index) => ...)` loop (lines 797-822),
started at index `i`. -/
def tocEntriesFrom : Nat → List Heading → List TocEntry
  | _, [] => []
  | i, h :: rest =>
    { id := secId i, href := "#" ++ secId i, text := h.text,
      indented := h.level == 3 } :: tocEntriesFrom (i + 1) rest

/-- Result of `generateTableOfContents`. -/
inductive TocResult where
  /-- `!blogBody || !tocList`: nothing is touched. -/
  | skipped : TocResult
  /-- Zero headings: the outline container is hidden, no entries added. -/
  | hidden : TocResult
  /-- The outline entries appended to the list, in document order. -/
  | entries : List TocEntry → TocResult
deriving Repr, DecidableEq

/-- `generateTableOfContents` (lines 781-822; the scroll-highlight listener
registered afterwards is continuous browser behaviour outside this model). -/
def generateTableOfContents (blogBodyPresent tocListPresent : Bool)
    (headings : List Heading) : TocResult :=
  if !blogBodyPresent || !tocListPresent then .skipped
  else if headings.isEmpty then .hidden
  else .entries (tocEntriesFrom 0 headings)

/-!
## Specification-level predicates
-/

/-- The text contains no blank line: no two consecutive characters are both
newlines (so `\n\n` never occurs in it). -/
def noNN (l : List Char) : Prop :=
  l.Chain' fun a b => ¬(a = '\n' ∧ b = '\n')

/-- Executable blank-line test: `true` exactly when `\n\n` occurs. -/
def hasNN : List Char → Bool
  | '\n' :: '\n' :: _ => true
  | _ :: rest => hasNN rest
  | [] => false

/-- Decides whether `pat` occurs as a contiguous run somewhere in `l`. -/
def containsSub (pat : List Char) : List Char → Bool
  | [] => pat.isEmpty
  | l@(_ :: rest) => leadsWith pat l || containsSub pat rest

/-!
## Lemmas: the inline substitutions
-/

theorem replaceLinks_eq_self (l : List Char) (h : '[' ∉ l) : replaceLinks l = l := by
  induction l using replaceLinks.induct with
  | case1 => rw [replaceLinks]
  | case2 rest txt rest2 h1 url tail h2 h3 ih =>
    exact absurd (List.mem_cons_self '[' _) h
  | case3 rest txt rest2 h1 url tail h2 h3 ih =>
    exact absurd (List.mem_cons_self '[' _) h
  | case4 rest rest2 h1 h2 ih =>
    exact absurd (List.mem_cons_self '[' _) h
  | case5 rest h1 ih =>
    exact absurd (List.mem_cons_self '[' _) h
  | case6 c rest hc ih =>
    rw [replaceLinks]
    · rw [ih (fun hm => h (List.mem_cons_of_mem c hm))]
    · exact hc

theorem replaceBold_eq_self (l : List Char) (h : '*' ∉ l) : replaceBold l = l := by
  induction l using replaceBold.induct with
  | case1 => rw [replaceBold]
  | case2 rest content tail h1 h2 ih =>
    exact absurd (List.mem_cons_self '*' _) h
  | case3 rest content tail h1 h2 ih =>
    exact absurd (List.mem_cons_self '*' _) h
  | case4 rest h1 ih =>
    exact absurd (List.mem_cons_self '*' _) h
  | case5 c rest hc ih =>
    rw [replaceBold]
    · rw [ih (fun hm => h (List.mem_cons_of_mem c hm))]
    · exact hc

theorem replaceUnderscoreBold_eq_self (l : List Char) (h : '_' ∉ l) :
    replaceUnderscoreBold l = l := by
  induction l using replaceUnderscoreBold.induct with
  | case1 => rw [replaceUnderscoreBold]
  | case2 rest content tail h1 h2 ih =>
    exact absurd (List.mem_cons_self '_' _) h
  | case3 rest content tail h1 h2 ih =>
    exact absurd (List.mem_cons_self '_' _) h
  | case4 rest h1 ih =>
    exact absurd (List.mem_cons_self '_' _) h
  | case5 c rest hc ih =>
    rw [replaceUnderscoreBold]
    · rw [ih (fun hm => h (List.mem_cons_of_mem c hm))]
    · exact hc

theorem replaceItalic_eq_self (l : List Char) (h : '*' ∉ l) : replaceItalic l = l := by
  induction l using replaceItalic.induct with
  | case1 => rw [replaceItalic]
  | case2 rest content tail h1 h2 ih =>
    exact absurd (List.mem_cons_self '*' _) h
  | case3 rest content tail h1 h2 ih =>
    exact absurd (List.mem_cons_self '*' _) h
  | case4 rest h1 ih =>
    exact absurd (List.mem_cons_self '*' _) h
  | case5 c rest hc ih =>
    rw [replaceItalic]
    · rw [ih (fun hm => h (List.mem_cons_of_mem c hm))]
    · exact hc

theorem replaceItalic_em (t rest : List Char) (ht : t ≠ []) (hstar : ∀ c ∈ t, c ≠ '*') :
    replaceItalic ('*' :: (t ++ '*' :: rest)) =
      "<em>".data ++ t ++ "</em>".data ++ replaceItalic rest := by
  have hp : ∀ c ∈ t, (fun x => decide (x ≠ '*')) c = true := by
    intro c hc; simpa using hstar c hc
  have htake : (t ++ '*' :: rest).takeWhile (· ≠ '*') = t := by
    rw [List.takeWhile_append_of_pos hp]
    simp [List.takeWhile_cons]
  have hdrop : (t ++ '*' :: rest).dropWhile (· ≠ '*') = '*' :: rest := by
    rw [List.dropWhile_append_of_pos hp]
    simp [List.dropWhile_cons]
  rw [replaceItalic.eq_def]
  simp only [htake, hdrop, List.isEmpty_iff]
  split
  · rename_i tail heq
    rw [hdrop] at heq
    cases heq
    simp [ht]
  · rename_i hno
    exact absurd hdrop (fun hh => hno rest hh)

theorem replaceBold_strong (t rest : List Char) (ht : t ≠ []) (hstar : ∀ c ∈ t, c ≠ '*') :
    replaceBold ('*' :: '*' :: (t ++ '*' :: '*' :: rest)) =
      "<strong>".data ++ t ++ "</strong>".data ++ replaceBold rest := by
  have hp : ∀ c ∈ t, (fun x => decide (x ≠ '*')) c = true := by
    intro c hc; simpa using hstar c hc
  have htake : (t ++ '*' :: '*' :: rest).takeWhile (· ≠ '*') = t := by
    rw [List.takeWhile_append_of_pos hp]
    simp [List.takeWhile_cons]
  have hdrop : (t ++ '*' :: '*' :: rest).dropWhile (· ≠ '*') = '*' :: '*' :: rest := by
    rw [List.dropWhile_append_of_pos hp]
    simp [List.dropWhile_cons]
  rw [replaceBold.eq_def]
  simp only [htake, hdrop, List.isEmpty_iff]
  split
  · rename_i tail heq
    rw [hdrop] at heq
    cases heq
    simp [ht]
  · rename_i hno
    exact absurd hdrop (fun hh => hno rest hh)

theorem replaceUnderscoreBold_strong (t rest : List Char) (ht : t ≠ [])
    (hund : ∀ c ∈ t, c ≠ '_') :
    replaceUnderscoreBold ('_' :: '_' :: (t ++ '_' :: '_' :: rest)) =
      "<strong>".data ++ t ++ "</strong>".data ++ replaceUnderscoreBold rest := by
  have hp : ∀ c ∈ t, (fun x => decide (x ≠ '_')) c = true := by
    intro c hc; simpa using hund c hc
  have htake : (t ++ '_' :: '_' :: rest).takeWhile (· ≠ '_') = t := by
    rw [List.takeWhile_append_of_pos hp]
    simp [List.takeWhile_cons]
  have hdrop : (t ++ '_' :: '_' :: rest).dropWhile (· ≠ '_') = '_' :: '_' :: rest := by
    rw [List.dropWhile_append_of_pos hp]
    simp [List.dropWhile_cons]
  rw [replaceUnderscoreBold.eq_def]
  simp only [htake, hdrop, List.isEmpty_iff]
  split
  · rename_i tail heq
    rw [hdrop] at heq
    cases heq
    simp [ht]
  · rename_i hno
    exact absurd hdrop (fun hh => hno rest hh)

theorem replaceLinks_anchor (t u rest : List Char) (ht : t ≠ []) (hu : u ≠ [])
    (htc : ∀ c ∈ t, c ≠ ']') (huc : ∀ c ∈ u, c ≠ ')') :
    replaceLinks ('[' :: (t ++ ']' :: '(' :: (u ++ ')' :: rest))) =
      "<a href=\"".data ++ u ++ "\" target=\"_blank\">".data ++ t
        ++ "</a>".data ++ replaceLinks rest := by
  have hpt : ∀ c ∈ t, (fun x => decide (x ≠ ']')) c = true := by
    intro c hc; simpa using htc c hc
  have hpu : ∀ c ∈ u, (fun x => decide (x ≠ ')')) c = true := by
    intro c hc; simpa using huc c hc
  have htake1 : (t ++ ']' :: '(' :: (u ++ ')' :: rest)).takeWhile (· ≠ ']') = t := by
    rw [List.takeWhile_append_of_pos hpt]
    simp [List.takeWhile_cons]
  have hdrop1 : (t ++ ']' :: '(' :: (u ++ ')' :: rest)).dropWhile (· ≠ ']')
      = ']' :: '(' :: (u ++ ')' :: rest) := by
    rw [List.dropWhile_append_of_pos hpt]
    simp [List.dropWhile_cons]
  have htake2 : (u ++ ')' :: rest).takeWhile (· ≠ ')') = u := by
    rw [List.takeWhile_append_of_pos hpu]
    simp [List.takeWhile_cons]
  have hdrop2 : (u ++ ')' :: rest).dropWhile (· ≠ ')') = ')' :: rest := by
    rw [List.dropWhile_append_of_pos hpu]
    simp [List.dropWhile_cons]
  rw [replaceLinks.eq_def]
  simp only [htake1, hdrop1, List.isEmpty_iff]
  split
  · rename_i rest2 heq
    rw [hdrop1] at heq
    cases heq
    simp only [htake2, hdrop2, List.isEmpty_iff]
    split
    · rename_i tail heq2
      rw [hdrop2] at heq2
      cases heq2
      simp [ht, hu]
    · rename_i hno
      exact absurd hdrop2 (fun hh => hno rest hh)
  · rename_i hno
    exact absurd hdrop1 (fun hh => hno (u ++ ')' :: rest) hh)

theorem replaceLinks_nil : replaceLinks [] = [] := by rw [replaceLinks]

theorem replaceBold_nil : replaceBold [] = [] := by rw [replaceBold]

theorem replaceUnderscoreBold_nil : replaceUnderscoreBold [] = [] := by
  rw [replaceUnderscoreBold]

theorem replaceItalic_nil : replaceItalic [] = [] := by rw [replaceItalic]

/-!
## Lemmas: absence of blank lines is preserved by the conversion passes
-/

theorem mem_of_getLastQ {l : List Char} {x : Char} (h : x ∈ l.getLast?) : x ∈ l := by
  obtain ⟨hne, rfl⟩ := List.mem_getLast?_eq_getLast h
  exact List.getLast_mem hne

theorem noNN_of_forall (l : List Char) (h : ∀ c ∈ l, c ≠ '\n') : noNN l := by
  induction l with
  | nil => exact List.chain'_nil
  | cons a t ih =>
    rw [noNN, List.chain'_cons']
    refine ⟨fun y _ hp => h a (List.mem_cons_self a t) hp.1,
      ih fun c hc => h c (List.mem_cons_of_mem a hc)⟩

theorem noNN_cons_ne (c : Char) (l : List Char) (hc : c ≠ '\n') (h : noNN l) :
    noNN (c :: l) := by
  rw [noNN, List.chain'_cons']
  exact ⟨fun y _ hp => hc hp.1, h⟩

theorem noNN_tail (c : Char) (l : List Char) (h : noNN (c :: l)) : noNN l :=
  List.Chain'.tail h

theorem noNN_append_split (a b : List Char) (h : noNN (a ++ b)) : noNN a ∧ noNN b := by
  rw [noNN, List.chain'_append] at h
  exact ⟨h.1, h.2.1⟩

theorem noNN_append_left_safe (a b : List Char) (ha : ∀ c ∈ a, c ≠ '\n') (hb : noNN b) :
    noNN (a ++ b) := by
  rw [noNN, List.chain'_append]
  exact ⟨noNN_of_forall a ha, hb, fun x hx y _ hp => ha x (mem_of_getLastQ hx) hp.1⟩

theorem noNN_append_head_lt (a b : List Char) (ha : noNN a) (hb : noNN b)
    (hh : ∀ y ∈ b.head?, y ≠ '\n') : noNN (a ++ b) := by
  rw [noNN, List.chain'_append]
  exact ⟨ha, hb, fun x _ y hy hp => hh y hy hp.2⟩

theorem noNN_takeWhile (p : Char → Bool) (l : List Char) (h : noNN l) :
    noNN (l.takeWhile p) := by
  have hd := List.takeWhile_append_dropWhile p l
  exact (noNN_append_split _ _ (by rw [hd]; exact h)).1

theorem noNN_dropWhile (p : Char → Bool) (l : List Char) (h : noNN l) :
    noNN (l.dropWhile p) := by
  have hd := List.takeWhile_append_dropWhile p l
  exact (noNN_append_split _ _ (by rw [hd]; exact h)).2

theorem head_lt_of_head_eq (b : List Char) (a : Char) (hb : b.head? = some a)
    (ha : a ≠ '\n') : ∀ y ∈ b.head?, y ≠ '\n' := by
  intro y hy
  rw [hb] at hy
  simp only [Option.mem_def, Option.some.injEq] at hy
  subst hy
  exact ha

theorem noNN_append_last_safe (a b : List Char) (ha : noNN a) (hb : noNN b)
    (hl : ∀ x ∈ a.getLast?, x ≠ '\n') : noNN (a ++ b) := by
  rw [noNN, List.chain'_append]
  exact ⟨ha, hb, fun x hx y _ hp => hl x hx hp.1⟩

theorem noNN_tag_wrap (tagO content tagC rep : List Char)
    (hO : ∀ c ∈ tagO, c ≠ '\n') (hC : ∀ c ∈ tagC, c ≠ '\n') (hne : tagC ≠ [])
    (hco : noNN content) (hrep : noNN rep) :
    noNN (tagO ++ content ++ tagC ++ rep) := by
  have hoc : noNN (tagO ++ content) := noNN_append_left_safe _ _ hO hco
  have hoct : noNN (tagO ++ content ++ tagC) := by
    refine noNN_append_head_lt _ _ hoc (noNN_of_forall _ hC) ?_
    exact fun y hy => hC y (List.mem_of_mem_head? hy)
  refine noNN_append_last_safe _ _ hoct hrep ?_
  intro x hx
  rw [List.getLast?_append_of_ne_nil _ hne] at hx
  exact hC x (mem_of_getLastQ hx)

theorem noNN_link_wrap (url txt rep : List Char)
    (hu : noNN url) (ht : noNN txt) (hr : noNN rep) :
    noNN ("<a href=\"".data ++ url ++ "\" target=\"_blank\">".data ++ txt
      ++ "</a>".data ++ rep) := by
  have h1 : noNN ("<a href=\"".data ++ url) :=
    noNN_append_left_safe _ _ (by decide) hu
  have h2 : noNN ("<a href=\"".data ++ url ++ "\" target=\"_blank\">".data) := by
    refine noNN_append_head_lt _ _ h1 (noNN_of_forall _ (by decide)) ?_
    exact fun y hy => (by decide : ∀ c ∈ "\" target=\"_blank\">".data, c ≠ '\n') y
      (List.mem_of_mem_head? hy)
  have h3 : noNN ("<a href=\"".data ++ url ++ "\" target=\"_blank\">".data ++ txt) := by
    refine noNN_append_last_safe _ _ h2 ht ?_
    intro x hx
    rw [List.getLast?_append_of_ne_nil _ (by decide)] at hx
    exact (by decide : ∀ c ∈ "\" target=\"_blank\">".data, c ≠ '\n') x (mem_of_getLastQ hx)
  have h4 : noNN ("<a href=\"".data ++ url ++ "\" target=\"_blank\">".data ++ txt
      ++ "</a>".data) := by
    refine noNN_append_head_lt _ _ h3 (noNN_of_forall _ (by decide)) ?_
    exact fun y hy => (by decide : ∀ c ∈ "</a>".data, c ≠ '\n') y (List.mem_of_mem_head? hy)
  refine noNN_append_last_safe _ _ h4 hr ?_
  intro x hx
  rw [List.getLast?_append_of_ne_nil _ (by decide)] at hx
  exact (by decide : ∀ c ∈ "</a>".data, c ≠ '\n') x (mem_of_getLastQ hx)

theorem replaceLinks_head (l : List Char) :
    (replaceLinks l).head? = l.head? ∨ (replaceLinks l).head? = some '<' := by
  induction l using replaceLinks.induct with
  | case1 => left; rw [replaceLinks.eq_1]
  | case2 rest txt rest2 h1 url tail h2 h3 ih =>
    have h3a : ((List.takeWhile (fun x => decide (x ≠ ']')) rest).isEmpty
        || (List.takeWhile (fun x => decide (x ≠ ')')) rest2).isEmpty) = true := h3
    rw [replaceLinks.eq_2]
    split
    · rename_i rest2x heq
      have hre : rest2x = rest2 := by
        rw [h1] at heq
        simpa using heq.symm
      subst hre
      split
      · rw [if_pos h3a]
        left; rfl
      · left; rfl
    · left; rfl
  | case3 rest txt rest2 h1 url tail h2 h3 ih =>
    have h3a : ¬((List.takeWhile (fun x => decide (x ≠ ']')) rest).isEmpty
        || (List.takeWhile (fun x => decide (x ≠ ')')) rest2).isEmpty) = true := h3
    rw [replaceLinks.eq_2]
    split
    · rename_i rest2x heq
      have hre : rest2x = rest2 := by
        rw [h1] at heq
        simpa using heq.symm
      subst hre
      split
      · rw [if_neg h3a]
        right; rfl
      · rename_i hno
        exact (hno tail h2).elim
    · rename_i hno
      exact (hno rest2 h1).elim
  | case4 rest rest2 h1 h2 ih =>
    rw [replaceLinks.eq_2]
    split
    · rename_i rest2x heq
      have hre : rest2x = rest2 := by
        rw [h1] at heq
        simpa using heq.symm
      subst hre
      split
      · rename_i tailx heq2
        exact (h2 tailx heq2).elim
      · left; rfl
    · left; rfl
  | case5 rest h1 ih =>
    rw [replaceLinks.eq_2]
    split
    · rename_i rest2x heq
      exact (h1 rest2x heq).elim
    · left; rfl
  | case6 c rest hc ih =>
    left
    rw [replaceLinks.eq_3 c rest hc]
    rfl

theorem noNN_replaceLinks (l : List Char) : noNN l → noNN (replaceLinks l) := by
  induction l using replaceLinks.induct with
  | case1 => intro _; rw [replaceLinks.eq_1]; exact List.chain'_nil
  | case2 rest txt rest2 h1 url tail h2 h3 ih =>
    intro h
    have h3a : ((List.takeWhile (fun x => decide (x ≠ ']')) rest).isEmpty
        || (List.takeWhile (fun x => decide (x ≠ ')')) rest2).isEmpty) = true := h3
    rw [replaceLinks.eq_2]
    split
    · rename_i rest2x heq
      have hre : rest2x = rest2 := by
        rw [h1] at heq
        simpa using heq.symm
      subst hre
      split
      · rw [if_pos h3a]
        exact noNN_cons_ne _ _ (by decide) (ih (noNN_tail _ _ h))
      · exact noNN_cons_ne _ _ (by decide) (ih (noNN_tail _ _ h))
    · exact noNN_cons_ne _ _ (by decide) (ih (noNN_tail _ _ h))
  | case3 rest txt rest2 h1 url tail h2 h3 ih =>
    intro h
    have h3a : ¬((List.takeWhile (fun x => decide (x ≠ ']')) rest).isEmpty
        || (List.takeWhile (fun x => decide (x ≠ ')')) rest2).isEmpty) = true := h3
    have hrest : noNN rest := noNN_tail _ _ h
    have hdw1 : noNN (']' :: '(' :: rest2) := by rw [← h1]; exact noNN_dropWhile _ _ hrest
    have hrest2 : noNN rest2 := noNN_tail _ _ (noNN_tail _ _ hdw1)
    have hdw2 : noNN (')' :: tail) := by rw [← h2]; exact noNN_dropWhile _ _ hrest2
    have htail : noNN tail := noNN_tail _ _ hdw2
    rw [replaceLinks.eq_2]
    split
    · rename_i rest2x heq
      have hre : rest2x = rest2 := by
        rw [h1] at heq
        simpa using heq.symm
      subst hre
      split
      · rename_i tailx heq2
        have hte : tailx = tail := by
          rw [h2] at heq2
          simpa using heq2.symm
        subst hte
        rw [if_neg h3a]
        exact noNN_link_wrap _ _ _ (noNN_takeWhile _ _ hrest2)
          (noNN_takeWhile _ _ hrest) (ih htail)
      · rename_i hno
        exact (hno tail h2).elim
    · rename_i hno
      exact (hno rest2 h1).elim
  | case4 rest rest2 h1 h2 ih =>
    intro h
    rw [replaceLinks.eq_2]
    split
    · rename_i rest2x heq
      have hre : rest2x = rest2 := by
        rw [h1] at heq
        simpa using heq.symm
      subst hre
      split
      · rename_i tailx heq2
        exact (h2 tailx heq2).elim
      · exact noNN_cons_ne _ _ (by decide) (ih (noNN_tail _ _ h))
    · exact noNN_cons_ne _ _ (by decide) (ih (noNN_tail _ _ h))
  | case5 rest h1 ih =>
    intro h
    rw [replaceLinks.eq_2]
    split
    · rename_i rest2x heq
      exact (h1 rest2x heq).elim
    · exact noNN_cons_ne _ _ (by decide) (ih (noNN_tail _ _ h))
  | case6 c rest hc ih =>
    intro h
    rw [replaceLinks.eq_3 c rest hc, noNN, List.chain'_cons']
    constructor
    · intro y hy hp
      rcases replaceLinks_head rest with hh | hh
      · rw [hh] at hy
        exact (List.chain'_cons'.mp h).1 y hy hp
      · rw [hh] at hy
        simp only [Option.mem_def, Option.some.injEq] at hy
        subst hy
        exact absurd hp.2 (by decide)
    · exact ih (noNN_tail _ _ h)

theorem replaceBold_head (l : List Char) :
    (replaceBold l).head? = l.head? ∨ (replaceBold l).head? = some '<' := by
  induction l using replaceBold.induct with
  | case1 => left; rw [replaceBold.eq_1]
  | case2 rest content tail h1 h2 ih =>
    have h2a : (List.takeWhile (fun x => decide (x ≠ '*')) rest).isEmpty = true := h2
    rw [replaceBold.eq_2]
    split
    · rw [if_pos h2a]
      left; rfl
    · left; rfl
  | case3 rest content tail h1 h2 ih =>
    have h2a : ¬(List.takeWhile (fun x => decide (x ≠ '*')) rest).isEmpty = true := h2
    rw [replaceBold.eq_2]
    split
    · rw [if_neg h2a]
      right; rfl
    · rename_i hno
      exact (hno tail h1).elim
  | case4 rest h1 ih =>
    rw [replaceBold.eq_2]
    split
    · rename_i tail2 heq
      exact (h1 tail2 heq).elim
    · left; rfl
  | case5 c rest hc ih =>
    left
    rw [replaceBold.eq_3 c rest hc]
    rfl

theorem noNN_replaceBold (l : List Char) : noNN l → noNN (replaceBold l) := by
  induction l using replaceBold.induct with
  | case1 => intro _; rw [replaceBold.eq_1]; exact List.chain'_nil
  | case2 rest content tail h1 h2 ih =>
    intro h
    have h2a : (List.takeWhile (fun x => decide (x ≠ '*')) rest).isEmpty = true := h2
    rw [replaceBold.eq_2]
    split
    · rw [if_pos h2a]
      exact noNN_cons_ne _ _ (by decide) (ih (noNN_tail _ _ h))
    · exact noNN_cons_ne _ _ (by decide) (ih (noNN_tail _ _ h))
  | case3 rest content tail h1 h2 ih =>
    intro h
    have h2a : ¬(List.takeWhile (fun x => decide (x ≠ '*')) rest).isEmpty = true := h2
    have hrest : noNN rest := noNN_tail _ _ (noNN_tail _ _ h)
    have hdw : noNN ('*' :: '*' :: tail) := by rw [← h1]; exact noNN_dropWhile _ _ hrest
    have htail : noNN tail := noNN_tail _ _ (noNN_tail _ _ hdw)
    rw [replaceBold.eq_2]
    split
    · rename_i tail2 heq
      rw [if_neg h2a]
      have hte : tail2 = tail := by
        rw [h1] at heq
        simpa using heq.symm
      subst hte
      exact noNN_tag_wrap "<strong>".data _ "</strong>".data _ (by decide) (by decide)
        (by decide) (noNN_takeWhile _ _ hrest) (ih htail)
    · rename_i hno
      exact (hno tail h1).elim
  | case4 rest h1 ih =>
    intro h
    rw [replaceBold.eq_2]
    split
    · rename_i tail2 heq
      exact (h1 tail2 heq).elim
    · exact noNN_cons_ne _ _ (by decide) (ih (noNN_tail _ _ h))
  | case5 c rest hc ih =>
    intro h
    rw [replaceBold.eq_3 c rest hc, noNN, List.chain'_cons']
    constructor
    · intro y hy hp
      rcases replaceBold_head rest with hh | hh
      · rw [hh] at hy
        exact (List.chain'_cons'.mp h).1 y hy hp
      · rw [hh] at hy
        simp only [Option.mem_def, Option.some.injEq] at hy
        subst hy
        exact absurd hp.2 (by decide)
    · exact ih (noNN_tail _ _ h)

theorem replaceUnderscoreBold_head (l : List Char) :
    (replaceUnderscoreBold l).head? = l.head?
      ∨ (replaceUnderscoreBold l).head? = some '<' := by
  induction l using replaceUnderscoreBold.induct with
  | case1 => left; rw [replaceUnderscoreBold.eq_1]
  | case2 rest content tail h1 h2 ih =>
    have h2a : (List.takeWhile (fun x => decide (x ≠ '_')) rest).isEmpty = true := h2
    rw [replaceUnderscoreBold.eq_2]
    split
    · rw [if_pos h2a]
      left; rfl
    · left; rfl
  | case3 rest content tail h1 h2 ih =>
    have h2a : ¬(List.takeWhile (fun x => decide (x ≠ '_')) rest).isEmpty = true := h2
    rw [replaceUnderscoreBold.eq_2]
    split
    · rw [if_neg h2a]
      right; rfl
    · rename_i hno
      exact (hno tail h1).elim
  | case4 rest h1 ih =>
    rw [replaceUnderscoreBold.eq_2]
    split
    · rename_i tail2 heq
      exact (h1 tail2 heq).elim
    · left; rfl
  | case5 c rest hc ih =>
    left
    rw [replaceUnderscoreBold.eq_3 c rest hc]
    rfl

theorem noNN_replaceUnderscoreBold (l : List Char) :
    noNN l → noNN (replaceUnderscoreBold l) := by
  induction l using replaceUnderscoreBold.induct with
  | case1 => intro _; rw [replaceUnderscoreBold.eq_1]; exact List.chain'_nil
  | case2 rest content tail h1 h2 ih =>
    intro h
    have h2a : (List.takeWhile (fun x => decide (x ≠ '_')) rest).isEmpty = true := h2
    rw [replaceUnderscoreBold.eq_2]
    split
    · rw [if_pos h2a]
      exact noNN_cons_ne _ _ (by decide) (ih (noNN_tail _ _ h))
    · exact noNN_cons_ne _ _ (by decide) (ih (noNN_tail _ _ h))
  | case3 rest content tail h1 h2 ih =>
    intro h
    have h2a : ¬(List.takeWhile (fun x => decide (x ≠ '_')) rest).isEmpty = true := h2
    have hrest : noNN rest := noNN_tail _ _ (noNN_tail _ _ h)
    have hdw : noNN ('_' :: '_' :: tail) := by rw [← h1]; exact noNN_dropWhile _ _ hrest
    have htail : noNN tail := noNN_tail _ _ (noNN_tail _ _ hdw)
    rw [replaceUnderscoreBold.eq_2]
    split
    · rename_i tail2 heq
      rw [if_neg h2a]
      have hte : tail2 = tail := by
        rw [h1] at heq
        simpa using heq.symm
      subst hte
      exact noNN_tag_wrap "<strong>".data _ "</strong>".data _ (by decide) (by decide)
        (by decide) (noNN_takeWhile _ _ hrest) (ih htail)
    · rename_i hno
      exact (hno tail h1).elim
  | case4 rest h1 ih =>
    intro h
    rw [replaceUnderscoreBold.eq_2]
    split
    · rename_i tail2 heq
      exact (h1 tail2 heq).elim
    · exact noNN_cons_ne _ _ (by decide) (ih (noNN_tail _ _ h))
  | case5 c rest hc ih =>
    intro h
    rw [replaceUnderscoreBold.eq_3 c rest hc, noNN, List.chain'_cons']
    constructor
    · intro y hy hp
      rcases replaceUnderscoreBold_head rest with hh | hh
      · rw [hh] at hy
        exact (List.chain'_cons'.mp h).1 y hy hp
      · rw [hh] at hy
        simp only [Option.mem_def, Option.some.injEq] at hy
        subst hy
        exact absurd hp.2 (by decide)
    · exact ih (noNN_tail _ _ h)

theorem replaceItalic_head (l : List Char) :
    (replaceItalic l).head? = l.head? ∨ (replaceItalic l).head? = some '<' := by
  induction l using replaceItalic.induct with
  | case1 => left; rw [replaceItalic.eq_1]
  | case2 rest content tail h1 h2 ih =>
    have h2a : (List.takeWhile (fun x => decide (x ≠ '*')) rest).isEmpty = true := h2
    rw [replaceItalic.eq_2]
    split
    · rw [if_pos h2a]
      left; rfl
    · left; rfl
  | case3 rest content tail h1 h2 ih =>
    have h2a : ¬(List.takeWhile (fun x => decide (x ≠ '*')) rest).isEmpty = true := h2
    rw [replaceItalic.eq_2]
    split
    · rw [if_neg h2a]
      right; rfl
    · rename_i hno
      exact (hno tail h1).elim
  | case4 rest h1 ih =>
    rw [replaceItalic.eq_2]
    split
    · rename_i tail2 heq
      exact (h1 tail2 heq).elim
    · left; rfl
  | case5 c rest hc ih =>
    left
    rw [replaceItalic.eq_3 c rest hc]
    rfl

theorem noNN_replaceItalic (l : List Char) : noNN l → noNN (replaceItalic l) := by
  induction l using replaceItalic.induct with
  | case1 => intro _; rw [replaceItalic.eq_1]; exact List.chain'_nil
  | case2 rest content tail h1 h2 ih =>
    intro h
    have h2a : (List.takeWhile (fun x => decide (x ≠ '*')) rest).isEmpty = true := h2
    rw [replaceItalic.eq_2]
    split
    · rw [if_pos h2a]
      exact noNN_cons_ne _ _ (by decide) (ih (noNN_tail _ _ h))
    · exact noNN_cons_ne _ _ (by decide) (ih (noNN_tail _ _ h))
  | case3 rest content tail h1 h2 ih =>
    intro h
    have h2a : ¬(List.takeWhile (fun x => decide (x ≠ '*')) rest).isEmpty = true := h2
    have hrest : noNN rest := noNN_tail _ _ h
    have hdw : noNN ('*' :: tail) := by rw [← h1]; exact noNN_dropWhile _ _ hrest
    have htail : noNN tail := noNN_tail _ _ hdw
    rw [replaceItalic.eq_2]
    split
    · rename_i tail2 heq
      rw [if_neg h2a]
      have hte : tail2 = tail := by
        rw [heq] at h1
        exact ((List.cons.injEq _ _ _ _).mp h1).2
      subst hte
      exact noNN_tag_wrap "<em>".data _ "</em>".data _ (by decide) (by decide) (by decide)
        (noNN_takeWhile _ _ hrest) (ih htail)
    · rename_i hno
      exact (hno tail h1).elim
  | case4 rest h1 ih =>
    intro h
    rw [replaceItalic.eq_2]
    split
    · rename_i tail2 heq
      exact (h1 tail2 heq).elim
    · exact noNN_cons_ne _ _ (by decide) (ih (noNN_tail _ _ h))
  | case5 c rest hc ih =>
    intro h
    rw [replaceItalic.eq_3 c rest hc, noNN, List.chain'_cons']
    constructor
    · intro y hy hp
      rcases replaceItalic_head rest with hh | hh
      · rw [hh] at hy
        exact (List.chain'_cons'.mp h).1 y hy hp
      · rw [hh] at hy
        simp only [Option.mem_def, Option.some.injEq] at hy
        subst hy
        exact absurd hp.2 (by decide)
    · exact ih (noNN_tail _ _ h)

theorem dropWhile_head_not (p : Char → Bool) (l : List Char) (c : Char) (r : List Char)
    (h : l.dropWhile p = c :: r) : p c = false := by
  induction l with
  | nil => simp at h
  | cons a t ih =>
    rw [List.dropWhile_cons] at h
    split at h
    · exact ih h
    · rename_i hpa
      injection h with h1 h2
      subst h1
      simpa using hpa

theorem takeWhile_line_no_nl (l : List Char) :
    ∀ c ∈ l.takeWhile (fun x => decide (x ≠ '\n')), c ≠ '\n' :=
  fun _ hc => by simpa using List.mem_takeWhile_imp hc

theorem h3Line_no_nl (line : List Char) (h : ∀ c ∈ line, c ≠ '\n') :
    ∀ c ∈ h3Line line, c ≠ '\n' := by
  rw [h3Line.eq_def]
  split
  · rename_i rest
    intro c hc
    rcases List.mem_append.mp hc with h1 | h1
    · rcases List.mem_append.mp h1 with h2 | h2
      · exact (by decide : ∀ c ∈ "<h3>".data, c ≠ '\n') c h2
      · refine h c ?_
        simp [h2]
    · exact (by decide : ∀ c ∈ "</h3>".data, c ≠ '\n') c h1
  · exact h

theorem h3Line_empty_iff (line : List Char) : h3Line line = [] ↔ line = [] := by
  rw [h3Line.eq_def]
  split
  · simp
  · exact Iff.rfl

theorem h2Line_no_nl (line : List Char) (h : ∀ c ∈ line, c ≠ '\n') :
    ∀ c ∈ h2Line line, c ≠ '\n' := by
  rw [h2Line.eq_def]
  split
  · rename_i rest
    intro c hc
    rcases List.mem_append.mp hc with h1 | h1
    · rcases List.mem_append.mp h1 with h2 | h2
      · exact (by decide : ∀ c ∈ "<h2>".data, c ≠ '\n') c h2
      · refine h c ?_
        simp [h2]
    · exact (by decide : ∀ c ∈ "</h2>".data, c ≠ '\n') c h1
  · exact h

theorem h2Line_empty_iff (line : List Char) : h2Line line = [] ↔ line = [] := by
  rw [h2Line.eq_def]
  split
  · simp
  · exact Iff.rfl

theorem h1Line_no_nl (line : List Char) (h : ∀ c ∈ line, c ≠ '\n') :
    ∀ c ∈ h1Line line, c ≠ '\n' := by
  rw [h1Line.eq_def]
  split
  · rename_i rest
    intro c hc
    rcases List.mem_append.mp hc with h1 | h1
    · rcases List.mem_append.mp h1 with h2 | h2
      · exact (by decide : ∀ c ∈ "<h1>".data, c ≠ '\n') c h2
      · refine h c ?_
        simp [h2]
    · exact (by decide : ∀ c ∈ "</h1>".data, c ≠ '\n') c h1
  · exact h

theorem h1Line_empty_iff (line : List Char) : h1Line line = [] ↔ line = [] := by
  rw [h1Line.eq_def]
  split
  · simp
  · exact Iff.rfl

theorem mapLines_head (f : List Char → List Char)
    (hemp : ∀ line, f line = [] ↔ line = [])
    (hnl : ∀ line, (∀ c ∈ line, c ≠ '\n') → ∀ c ∈ f line, c ≠ '\n')
    (l : List Char) (h : (mapLines f l).head? = some '\n') : l.head? = some '\n' := by
  rw [mapLines.eq_1] at h
  split at h
  · exfalso
    have hm : '\n' ∈ f (l.takeWhile (fun x => decide (x ≠ '\n'))) :=
      List.mem_of_mem_head? h
    exact hnl _ (takeWhile_line_no_nl l) '\n' hm rfl
  · rename_i head rest heq
    by_cases hline : l.takeWhile (fun x => decide (x ≠ '\n')) = []
    · cases l with
      | nil => simp at heq
      | cons a t =>
        rw [List.takeWhile_cons] at hline
        split at hline
        · exact absurd hline (by simp)
        · rename_i hpa
          have ha : a = '\n' := by simpa using hpa
          subst ha
          rfl
    · exfalso
      have hfne : f (l.takeWhile (fun x => decide (x ≠ '\n'))) ≠ [] :=
        fun hx => hline ((hemp _).mp hx)
      rw [List.head?_append_of_ne_nil _ hfne] at h
      have hm : '\n' ∈ f (l.takeWhile (fun x => decide (x ≠ '\n'))) :=
        List.mem_of_mem_head? h
      exact hnl _ (takeWhile_line_no_nl l) '\n' hm rfl

theorem noNN_mapLines (f : List Char → List Char)
    (hemp : ∀ line, f line = [] ↔ line = [])
    (hnl : ∀ line, (∀ c ∈ line, c ≠ '\n') → ∀ c ∈ f line, c ≠ '\n')
    (l : List Char) (h : noNN l) : noNN (mapLines f l) := by
  rw [mapLines.eq_1]
  split
  · exact noNN_of_forall _ (hnl _ (takeWhile_line_no_nl l))
  · rename_i head rest heq
    have hd : head = '\n' := by simpa using dropWhile_head_not _ l head rest heq
    subst hd
    have hdecomp : l.takeWhile (fun x => decide (x ≠ '\n')) ++ '\n' :: rest = l := by
      conv_rhs => rw [← List.takeWhile_append_dropWhile (fun x => decide (x ≠ '\n')) l]
      rw [heq]
    have hl : noNN (l.takeWhile (fun x => decide (x ≠ '\n')) ++ '\n' :: rest) := by
      rw [hdecomp]
      exact h
    have hnr : noNN ('\n' :: rest) := (noNN_append_split _ _ hl).2
    have hrest : noNN rest := noNN_tail _ _ hnr
    have hihead : ∀ y ∈ rest.head?, y ≠ '\n' := by
      intro y hy hc
      exact (List.chain'_cons'.mp hnr).1 y hy ⟨rfl, hc⟩
    refine noNN_append_left_safe _ _ (hnl _ (takeWhile_line_no_nl l)) ?_
    rw [noNN, List.chain'_cons']
    constructor
    · intro y hy hp
      have hsome : (mapLines f rest).head? = some '\n' := by
        rw [← hp.2]
        exact hy
      have h2 := mapLines_head f hemp hnl rest hsome
      have : ('\n' : Char) ∈ rest.head? := by rw [h2]; rfl
      exact absurd rfl (hihead '\n' this)
    · exact noNN_mapLines f hemp hnl rest hrest
termination_by l.length
decreasing_by
  have ha : (l.dropWhile (fun x => decide (x ≠ '\n'))).length ≤ l.length :=
    (List.dropWhile_sublist _).length_le
  rw [heq] at ha
  simp only [List.length_cons] at ha
  omega

theorem noNN_applyHeadings (l : List Char) (h : noNN l) : noNN (applyHeadings l) := by
  rw [applyHeadings]
  exact noNN_mapLines h1Line h1Line_empty_iff h1Line_no_nl _
    (noNN_mapLines h2Line h2Line_empty_iff h2Line_no_nl _
      (noNN_mapLines h3Line h3Line_empty_iff h3Line_no_nl _ h))

theorem noNN_convertBody (l : List Char) (h : noNN l) : noNN (convertBody l) := by
  rw [convertBody, inlinePasses]
  exact noNN_replaceItalic _ (noNN_replaceUnderscoreBold _ (noNN_replaceBold _
    (noNN_replaceLinks _ (noNN_applyHeadings _ h))))

theorem splitBlocksAux_noNN (acc l : List Char) (h : noNN l) :
    splitBlocksAux acc l = [acc ++ l] := by
  induction acc, l using splitBlocksAux.induct with
  | case1 acc rest ih =>
    exfalso
    exact (List.chain'_cons'.mp h).1 '\n' rfl ⟨rfl, rfl⟩
  | case2 acc c rest hc ih =>
    rw [splitBlocksAux.eq_2 acc c rest hc, ih (noNN_tail _ _ h)]
    simp
  | case3 acc =>
    rw [splitBlocksAux.eq_3]
    simp

theorem splitBlocks_noNN (l : List Char) (h : noNN l) : splitBlocks l = [l] := by
  rw [splitBlocks, splitBlocksAux_noNN [] l h]
  simp

theorem intercalate_singleton (s x : List Char) : List.intercalate s [x] = x := by
  simp [List.intercalate]

theorem hasNN_eq_false_iff (l : List Char) : hasNN l = false ↔ noNN l := by
  induction l using hasNN.induct with
  | case1 rest =>
    rw [hasNN.eq_1]
    simp only [Bool.true_eq_false, false_iff]
    intro h
    exact (List.chain'_cons'.mp h).1 '\n' rfl ⟨rfl, rfl⟩
  | case2 c rest hguard ih =>
    rw [hasNN.eq_2 c rest hguard, ih]
    constructor
    · intro h
      rw [noNN, List.chain'_cons']
      refine ⟨?_, h⟩
      intro y hy hp
      cases rest with
      | nil => simp at hy
      | cons r t =>
        simp only [List.head?_cons, Option.mem_def, Option.some.injEq] at hy
        subst hy
        exact hguard t hp.1 (by rw [← hp.2])
    · intro h
      exact noNN_tail _ _ h
  | case3 => simp [hasNN.eq_3, noNN]

/-!
## Claim C2
-/

/-- C2 (amended): for every non-empty input with no blank line (no two
consecutive newlines) and no frontmatter, whose converted content after
trimming is non-empty and does not begin with a block-level tag prefix
(`<h`, `<figure`, `<ul`, `<ol`, `</`), `parseMarkdown` wraps the whole
converted content in exactly one `<p>...</p>` element. -/
theorem claimC2 (md : List Char) (hne : md ≠ []) (hnn : hasNN md = false)
    (hfm : stripFrontmatter md = md)
    (ht : trimJs (convertBody md) ≠ [])
    (hblock : isBlockTagStart (trimJs (convertBody md)) = false) :
    parseMarkdownL md = "<p>".data ++ trimJs (convertBody md) ++ "</p>".data := by
  rw [parseMarkdownL, hfm, renderBody,
    splitBlocks_noNN _ (noNN_convertBody md ((hasNN_eq_false_iff md).mp hnn))]
  simp only [List.map_cons, List.map_nil]
  rw [intercalate_singleton]
  simp only [wrapBlock]
  rw [if_neg fun hx => ht (List.isEmpty_iff.mp hx)]
  rw [if_neg (by simp [hblock])]

unseal replaceLinks replaceBold replaceUnderscoreBold replaceItalic mapLines in
/-- Witness for C2: the amended claim applied at `"hello world"`. -/
theorem claimC2_witness :
    parseMarkdownL "hello world".data
      = "<p>".data ++ trimJs (convertBody "hello world".data) ++ "</p>".data :=
  claimC2 "hello world".data (by decide) (by decide) (by decide) (by decide) (by decide)

unseal replaceLinks replaceBold replaceUnderscoreBold replaceItalic mapLines splitBlocksAux in
/-- Counterexample to C2 as stated: `"<h2>x</h2>"` is non-empty, has no blank
line and no frontmatter, yet `parseMarkdown` emits it unchanged — the output
contains no paragraph element at all, not exactly one. -/
theorem claimC2_counterexample :
    ("<h2>x</h2>".data).isEmpty = false ∧
    hasNN "<h2>x</h2>".data = false ∧
    stripFrontmatter "<h2>x</h2>".data = "<h2>x</h2>".data ∧
    parseMarkdown "<h2>x</h2>" = "<h2>x</h2>" ∧
    containsSub "<p>".data (parseMarkdown "<h2>x</h2>").data = false := by
  refine ⟨by decide, by decide, by decide, by decide, by decide⟩

theorem takeWhile_all (p : Char → Bool) (l : List Char) (h : ∀ a ∈ l, p a = true) :
    l.takeWhile p = l := by
  induction l with
  | nil => rfl
  | cons a t ih =>
    rw [List.takeWhile_cons, if_pos (h a (List.mem_cons_self a t))]
    rw [ih fun c hc => h c (List.mem_cons_of_mem a hc)]

theorem dropWhile_all (p : Char → Bool) (l : List Char) (h : ∀ a ∈ l, p a = true) :
    l.dropWhile p = [] := by
  induction l with
  | nil => rfl
  | cons a t ih =>
    rw [List.dropWhile_cons, if_pos (h a (List.mem_cons_self a t))]
    exact ih fun c hc => h c (List.mem_cons_of_mem a hc)

theorem stripFrontmatter_of_head_ne (l : List Char) (h : l.head? ≠ some '-') :
    stripFrontmatter l = l := by
  rw [stripFrontmatter.eq_def]
  split
  · exact absurd rfl h
  · rfl

theorem mapLines_of_no_nl (f : List Char → List Char) (l : List Char)
    (h : ∀ c ∈ l, c ≠ '\n') : mapLines f l = f l := by
  rw [mapLines.eq_1]
  have hp : ∀ a ∈ l, (fun x => decide (x ≠ '\n')) a = true := by
    intro a ha; simpa using h a ha
  split
  · rw [takeWhile_all _ _ hp]
  · rename_i head rest heq
    rw [dropWhile_all _ _ hp] at heq
    exact absurd heq (by simp)

theorem trimJs_eq_self_of (l : List Char)
    (hh : ∀ y ∈ l.head?, isJsWS y = false)
    (hl : ∀ y ∈ l.getLast?, isJsWS y = false) : trimJs l = l := by
  rw [trimJs]
  have h1 : l.dropWhile isJsWS = l := by
    cases l with
    | nil => rfl
    | cons a t =>
      rw [List.dropWhile_cons, if_neg (by simp [hh a rfl])]
  rw [h1]
  have h2 : l.reverse.dropWhile isJsWS = l.reverse := by
    cases hrev : l.reverse with
    | nil => rfl
    | cons b r =>
      have hb : l.getLast? = some b := by
        rw [← List.head?_reverse, hrev, List.head?_cons]
      rw [List.dropWhile_cons, if_neg (by simp [hl b (by rw [hb]; rfl)])]
  rw [h2, List.reverse_reverse]

/-!
## Claim C5
-/

unseal replaceLinks replaceBold replaceUnderscoreBold replaceItalic mapLines splitBlocksAux in
/-- C5: a blank-line-separated block whose trimmed text already begins with a
block-level tag (`<h`, `<figure`, `<ul`, `<ol`, or a closing tag `</`) is
emitted as-is, while every other non-empty block is wrapped in `<p>...</p>`;
the whole pipeline is the blockwise wrap of the converted, split document. -/
theorem claimC5 :
    (∀ md : List Char, parseMarkdownL md
      = List.intercalate ['\n']
          ((splitBlocks (convertBody (stripFrontmatter md))).map wrapBlock)) ∧
    (∀ b : List Char, trimJs b ≠ [] → isBlockTagStart (trimJs b) = true →
      wrapBlock b = trimJs b) ∧
    (∀ b : List Char, trimJs b ≠ [] → isBlockTagStart (trimJs b) = false →
      wrapBlock b = "<p>".data ++ trimJs b ++ "</p>".data) ∧
    parseMarkdown "<h2>x</h2>\n\nhello" = "<h2>x</h2>\n<p>hello</p>" ∧
    parseMarkdown "<figure>f</figure>" = "<figure>f</figure>" ∧
    parseMarkdown "<ul><li>a</li></ul>" = "<ul><li>a</li></ul>" ∧
    parseMarkdown "<ol><li>a</li></ol>" = "<ol><li>a</li></ol>" ∧
    parseMarkdown "</div>" = "</div>" := by
  refine ⟨fun md => rfl, ?_, ?_, by decide, by decide, by decide, by decide, by decide⟩
  · intro b hne htag
    simp only [wrapBlock]
    rw [if_neg fun hx => hne (List.isEmpty_iff.mp hx), if_pos htag]
  · intro b hne htag
    simp only [wrapBlock]
    rw [if_neg fun hx => hne (List.isEmpty_iff.mp hx), if_neg (by simp [htag])]

/-- Witness for C5: both wrap branches applied at concrete blocks. -/
theorem claimC5_witness :
    wrapBlock "  <h2>t</h2> ".data = trimJs "  <h2>t</h2> ".data ∧
    wrapBlock " hi ".data = "<p>".data ++ trimJs " hi ".data ++ "</p>".data :=
  ⟨claimC5.2.1 "  <h2>t</h2> ".data (by decide) (by decide),
   claimC5.2.2.1 " hi ".data (by decide) (by decide)⟩

theorem leadsWith_append_of_le (pat l suf : List Char) (hlen : pat.length ≤ l.length) :
    leadsWith pat (l ++ suf) = leadsWith pat l := by
  induction pat generalizing l with
  | nil =>
    cases l <;> rfl
  | cons p ps ih =>
    cases l with
    | nil => simp at hlen
    | cons a l2 =>
      rw [List.cons_append]
      show (p == a && leadsWith ps (l2 ++ suf)) = (p == a && leadsWith ps l2)
      rw [ih l2 (by simpa using hlen)]

theorem fmSearch_append (X body : List Char) (h : fmSearch X = none) :
    fmSearch (X ++ '-' :: '-' :: '-' :: '\n' :: body) = some body := by
  match X, h with
  | [], _ =>
    rw [List.nil_append, fmSearch.eq_2,
      if_pos (by simp [leadsWith, fmClose])]
    simp
  | c :: X2, h =>
    rw [fmSearch.eq_2] at h
    split at h
    · simp at h
    · rename_i hcond
      rw [List.cons_append, fmSearch.eq_2, ← List.cons_append]
      by_cases hlen : 3 ≤ X2.length
      · rw [if_neg ?_]
        · exact fmSearch_append X2 body h
        · rw [leadsWith_append_of_le fmClose (c :: X2) _ (by simp [fmClose]; omega)]
          exact hcond
      · rw [if_neg ?_]
        · exact fmSearch_append X2 body h
        · cases X2 with
          | nil => simp [leadsWith, fmClose]
          | cons a X3 =>
            cases X3 with
            | nil => simp [leadsWith, fmClose]
            | cons b X4 =>
              cases X4 with
              | nil => simp [leadsWith, fmClose]
              | cons c X5 => exact absurd (by simp) hlen
termination_by X.length

theorem stripFrontmatter_fm (X body : List Char) (h : fmSearch X = none) :
    stripFrontmatter ('-' :: '-' :: '-' :: (X ++ '-' :: '-' :: '-' :: '\n' :: body))
      = body := by
  rw [stripFrontmatter.eq_def]
  split
  · rename_i rest heq
    injection heq with _ heq; injection heq with _ heq; injection heq with _ heq
    subst heq
    rw [fmSearch_append X body h]
  · rename_i hno
    exact (hno (X ++ '-' :: '-' :: '-' :: '\n' :: body) rfl).elim

/-!
## Claim C6
-/

/-- C6: an input beginning with a frontmatter block (`---`, then content `X`
containing no closing `---` line, then the closing `---` line) is rendered by
first stripping the whole block; the output equals the conversion of the
document body alone. -/
theorem claimC6 (X body : List Char) (h : fmSearch X = none) :
    stripFrontmatter ('-' :: '-' :: '-' :: (X ++ '-' :: '-' :: '-' :: '\n' :: body))
        = body ∧
    parseMarkdownL ('-' :: '-' :: '-' :: (X ++ '-' :: '-' :: '-' :: '\n' :: body))
        = renderBody body := by
  have hs := stripFrontmatter_fm X body h
  exact ⟨hs, by rw [parseMarkdownL, hs]⟩

/-- Witness for C6: a concrete frontmatter block and body. -/
theorem claimC6_witness :
    stripFrontmatter ('-' :: '-' :: '-' ::
        ("\ntitle: hi\n".data ++ '-' :: '-' :: '-' :: '\n' :: "hello".data))
      = "hello".data ∧
    parseMarkdownL ('-' :: '-' :: '-' ::
        ("\ntitle: hi\n".data ++ '-' :: '-' :: '-' :: '\n' :: "hello".data))
      = renderBody "hello".data :=
  claimC6 "\ntitle: hi\n".data "hello".data (by decide)

theorem isBlockTagStart_lt_s (M : List Char) : isBlockTagStart ('<' :: 's' :: M) = false := by
  rw [isBlockTagStart,
    show "<h".data = ['<', 'h'] from rfl,
    show "<figure".data = ['<', 'f', 'i', 'g', 'u', 'r', 'e'] from rfl,
    show "<ul".data = ['<', 'u', 'l'] from rfl,
    show "<ol".data = ['<', 'o', 'l'] from rfl,
    show "</".data = ['<', '/'] from rfl]
  simp [leadsWith]

/-!
## Claim C10
-/

unseal replaceLinks replaceBold replaceUnderscoreBold replaceItalic mapLines splitBlocksAux in
/-- C10: `parseMarkdown` also converts double-underscore bold, a form the
specification never lists: a body `__t__` renders as
`<p><strong>t</strong></p>`, and `__b__` works inside a paragraph too. -/
theorem claimC10 :
    (∀ t : List Char, t ≠ [] →
      (∀ c ∈ t, c ≠ '_' ∧ c ≠ '*' ∧ c ≠ '[' ∧ c ≠ '\n') →
      parseMarkdownL ('_' :: '_' :: (t ++ ['_', '_']))
        = "<p><strong>".data ++ t ++ "</strong></p>".data) ∧
    parseMarkdown "a __b__ c" = "<p>a <strong>b</strong> c</p>" := by
  refine ⟨?_, by decide⟩
  intro t ht hc
  have hmem : ∀ c ∈ ('_' :: '_' :: (t ++ ['_', '_'])), c = '_' ∨ c ∈ t := by
    intro c hcm
    simp only [List.mem_cons, List.mem_append, List.not_mem_nil, or_false] at hcm
    tauto
  have hnl : ∀ c ∈ ('_' :: '_' :: (t ++ ['_', '_'])), c ≠ '\n' := by
    intro c hcm
    rcases hmem c hcm with rfl | hm
    · decide
    · exact (hc c hm).2.2.2
  have hbr : '[' ∉ ('_' :: '_' :: (t ++ ['_', '_'])) := by
    intro hcm
    rcases hmem _ hcm with h1 | hm
    · exact absurd h1 (by decide)
    · exact (hc _ hm).2.2.1 rfl
  have hst : '*' ∉ ('_' :: '_' :: (t ++ ['_', '_'])) := by
    intro hcm
    rcases hmem _ hcm with h1 | hm
    · exact absurd h1 (by decide)
    · exact (hc _ hm).2.1 rfl
  have e3 : h3Line ('_' :: '_' :: (t ++ ['_', '_'])) = '_' :: '_' :: (t ++ ['_', '_']) := by
    rw [h3Line.eq_def]
    split
    · rename_i r heq; simp at heq
    · rfl
  have e2 : h2Line ('_' :: '_' :: (t ++ ['_', '_'])) = '_' :: '_' :: (t ++ ['_', '_']) := by
    rw [h2Line.eq_def]
    split
    · rename_i r heq; simp at heq
    · rfl
  have e1 : h1Line ('_' :: '_' :: (t ++ ['_', '_'])) = '_' :: '_' :: (t ++ ['_', '_']) := by
    rw [h1Line.eq_def]
    split
    · rename_i r heq; simp at heq
    · rfl
  have hmem2 : ∀ c ∈ ("<strong>".data ++ t ++ "</strong>".data),
      c ∈ "<strong>".data ∨ c ∈ t ∨ c ∈ "</strong>".data := by
    intro c hcm
    rcases List.mem_append.mp hcm with h1 | h1
    · rcases List.mem_append.mp h1 with h2 | h2
      · exact Or.inl h2
      · exact Or.inr (Or.inl h2)
    · exact Or.inr (Or.inr h1)
  have hst2 : '*' ∉ ("<strong>".data ++ t ++ "</strong>".data) := by
    intro hcm
    rcases hmem2 _ hcm with h1 | h1 | h1
    · exact absurd h1 (by decide)
    · exact (hc _ h1).2.1 rfl
    · exact absurd h1 (by decide)
  have hnl2 : ∀ c ∈ ("<strong>".data ++ t ++ "</strong>".data), c ≠ '\n' := by
    intro c hcm
    rcases hmem2 _ hcm with h1 | h1 | h1
    · exact (by decide : ∀ c ∈ "<strong>".data, c ≠ '\n') c h1
    · exact (hc _ h1).2.2.2
    · exact (by decide : ∀ c ∈ "</strong>".data, c ≠ '\n') c h1
  have hhead : ((['<', 's', 't', 'r', 'o', 'n', 'g', '>'] ++ t
      ++ ['<', '/', 's', 't', 'r', 'o', 'n', 'g', '>']) : List Char).head? = some '<' := rfl
  have hlast : ((['<', 's', 't', 'r', 'o', 'n', 'g', '>'] ++ t
      ++ ['<', '/', 's', 't', 'r', 'o', 'n', 'g', '>']) : List Char).getLast? = some '>' := by
    rw [List.getLast?_append_of_ne_nil _ (by simp)]
    rfl
  have htrh : ∀ y ∈ ((['<', 's', 't', 'r', 'o', 'n', 'g', '>'] ++ t
      ++ ['<', '/', 's', 't', 'r', 'o', 'n', 'g', '>']) : List Char).head?, isJsWS y = false := by
    intro y hy
    rw [hhead] at hy
    simp only [Option.mem_def, Option.some.injEq] at hy
    subst hy
    decide
  have htrl : ∀ y ∈ ((['<', 's', 't', 'r', 'o', 'n', 'g', '>'] ++ t
      ++ ['<', '/', 's', 't', 'r', 'o', 'n', 'g', '>']) : List Char).getLast?, isJsWS y = false := by
    intro y hy
    rw [hlast] at hy
    simp only [Option.mem_def, Option.some.injEq] at hy
    subst hy
    decide
  rw [parseMarkdownL, stripFrontmatter_of_head_ne _ (by simp), renderBody, convertBody,
    applyHeadings, mapLines_of_no_nl h3Line _ hnl, e3, mapLines_of_no_nl h2Line _ hnl, e2,
    mapLines_of_no_nl h1Line _ hnl, e1, inlinePasses, replaceLinks_eq_self _ hbr,
    replaceBold_eq_self _ hst,
    replaceUnderscoreBold_strong t [] ht (fun c hm => (hc c hm).1),
    replaceUnderscoreBold_nil, List.append_nil, replaceItalic_eq_self _ hst2,
    splitBlocks_noNN _ (noNN_of_forall _ hnl2)]
  simp only [List.map_cons, List.map_nil]
  rw [intercalate_singleton]
  simp only [wrapBlock]
  rw [trimJs_eq_self_of _ htrh htrl]
  rw [if_neg (by simp [List.isEmpty_iff])]
  rw [if_neg (by
    rw [show ((['<', 's', 't', 'r', 'o', 'n', 'g', '>'] ++ t
        ++ ['<', '/', 's', 't', 'r', 'o', 'n', 'g', '>']) : List Char)
      = '<' :: 's' :: (['t', 'r', 'o', 'n', 'g', '>'] ++ t
        ++ ['<', '/', 's', 't', 'r', 'o', 'n', 'g', '>']) from rfl]
    simp [isBlockTagStart_lt_s])]
  simp [List.append_assoc]

/-- Witness for C10: the double-underscore rule applied at `t = "b"`. -/
theorem claimC10_witness :
    parseMarkdownL ('_' :: '_' :: ("b".data ++ ['_', '_']))
      = "<p><strong>".data ++ "b".data ++ "</strong></p>".data :=
  claimC10.1 "b".data (by decide) (by decide)

theorem timelineLe_trans (a b c : TimelineItem) (h1 : timelineLe a b = true)
    (h2 : timelineLe b c = true) : timelineLe a c = true := by
  simp [timelineLe] at *
  omega

theorem timelineLe_total (a b : TimelineItem) : (timelineLe a b || timelineLe b a) = true := by
  simp [timelineLe]
  omega

/-!
## Claim C3
-/

/-- C3: the timeline renders entries sorted by start date descending
(concrete 2020/2022/2021 instance, general descending order, and stability:
tied entries keep their original relative order), a `"present"` end date
(case-insensitive) renders as `"<start year> - Present"`, and the rendered
container content is the concatenation over the sorted list. -/
theorem claimC3 :
    (sortTimeline
        [⟨1577836800000, 2020, none, 0, some "A", none, "", ""⟩,
         ⟨1640995200000, 2022, none, 0, some "B", none, "", ""⟩,
         ⟨1609459200000, 2021, none, 0, some "C", none, "", ""⟩]
      = [⟨1640995200000, 2022, none, 0, some "B", none, "", ""⟩,
         ⟨1609459200000, 2021, none, 0, some "C", none, "", ""⟩,
         ⟨1577836800000, 2020, none, 0, some "A", none, "", ""⟩]) ∧
    (∀ items : List TimelineItem,
      (sortTimeline items).Pairwise fun a b => b.start_value ≤ a.start_value) ∧
    (∀ a b : TimelineItem, ∀ items : List TimelineItem,
      a.start_value = b.start_value → [a, b].Sublist items →
      [a, b].Sublist (sortTimeline items)) ∧
    (∀ item : TimelineItem, ∀ e : String, item.end_date = some e →
      jsToLower e = "present" →
      yearRange item = toString item.start_year ++ " - Present") ∧
    (∀ timeline : List TimelineItem, ∀ dom : Dom, ∀ s : String,
      dom.timelineList = some s →
      (loadTimeline (some timeline) dom).timelineList
        = some (String.join ((sortTimeline timeline).map timelineItemHTML))) := by
  refine ⟨?_, ?_, ?_, ?_, ?_⟩
  · simp [sortTimeline, List.mergeSort, timelineLe]
  · intro items
    exact (List.sorted_mergeSort timelineLe_trans timelineLe_total items).imp
      fun h => by simpa [timelineLe] using h
  · intro a b items htie hsub
    refine List.sublist_mergeSort timelineLe_trans timelineLe_total ?_ hsub
    refine List.pairwise_cons.mpr ⟨?_, List.pairwise_singleton _ _⟩
    intro b' hb'
    rw [List.mem_singleton] at hb'
    subst hb'
    simp [timelineLe, htie]
  · intro item e hend hpres
    have hne : ¬e.isEmpty = true := by
      intro hx
      rw [String.isEmpty_iff] at hx
      subst hx
      exact absurd hpres (by decide)
    have he : endYearText item = "Present" := by
      simp only [endYearText, hend]
      rw [if_neg hne, if_pos hpres]
    rw [yearRange, he]
    rw [if_neg (by decide)]
    rw [String.append_assoc]
    rfl
  · intro timeline dom s hdom
    rw [loadTimeline.eq_def, hdom]

/-- Witness for C3: the tie-stability, present-rendering and container
conjuncts at concrete inputs. -/
theorem claimC3_witness :
    ([⟨5, 2024, none, 0, some "X", none, "", ""⟩,
      (⟨5, 2024, none, 0, some "Y", none, "", ""⟩ : TimelineItem)].Sublist
      (sortTimeline
        [⟨5, 2024, none, 0, some "X", none, "", ""⟩,
         ⟨5, 2024, none, 0, some "Y", none, "", ""⟩])) ∧
    yearRange ⟨1704067200000, 2024, some "Present", 0, none, none, "", ""⟩
      = toString (2024 : Int) ++ " - Present" ∧
    (loadTimeline (some [])
        ⟨some "", none, none, none, none⟩).timelineList
      = some (String.join ((sortTimeline []).map timelineItemHTML)) :=
  ⟨claimC3.2.2.1 _ _ _ rfl (List.Sublist.refl _),
   claimC3.2.2.2.1 _ "Present" rfl (by decide),
   claimC3.2.2.2.2 [] _ "" rfl⟩

theorem tocEntriesFrom_ids (i : Nat) (hs : List Heading) :
    (tocEntriesFrom i hs).map TocEntry.id = (List.range' i hs.length).map secId := by
  induction hs generalizing i with
  | nil => rfl
  | cons h t ih =>
    rw [tocEntriesFrom, List.length_cons, List.range'_succ]
    simp only [List.map_cons]
    rw [ih]

/-!
## Claim C4
-/

/-- C4: with both containers present, every level-2/3 heading receives the
positional identifier `section-<index>` (zero-based, document order); one
`<h2>` plus two `<h3>` yield exactly the three entries `section-0`,
`section-1`, `section-2`; zero headings hide the outline container and add
no entries. -/
theorem claimC4 :
    (∀ hs : List Heading, hs ≠ [] →
      generateTableOfContents true true hs = .entries (tocEntriesFrom 0 hs) ∧
      (tocEntriesFrom 0 hs).map TocEntry.id = (List.range hs.length).map secId) ∧
    (generateTableOfContents true true [⟨2, "A"⟩, ⟨3, "B"⟩, ⟨3, "C"⟩]
      = .entries
          [⟨"section-0", "#section-0", "A", false⟩,
           ⟨"section-1", "#section-1", "B", true⟩,
           ⟨"section-2", "#section-2", "C", true⟩]) ∧
    generateTableOfContents true true [] = .hidden := by
  refine ⟨?_, by decide, by decide⟩
  intro hs hne
  constructor
  · simp [generateTableOfContents, List.isEmpty_iff, hne]
  · rw [tocEntriesFrom_ids, List.range_eq_range']

/-- Witness for C4: the general conjunct applied to a single heading. -/
theorem claimC4_witness :
    generateTableOfContents true true [⟨2, "X"⟩]
        = .entries (tocEntriesFrom 0 [⟨2, "X"⟩]) ∧
    (tocEntriesFrom 0 [⟨2, "X"⟩]).map TocEntry.id
        = (List.range 1).map secId :=
  ⟨(claimC4.1 [⟨2, "X"⟩] (by decide)).1,
   (claimC4.1 [⟨2, "X"⟩] (by decide)).2⟩

/-!
## Claim C8
-/

/-- C8: when a section loader's target container is absent, the loader
returns the page state unchanged (modelled by totality plus the guard: no
exception can escape), and no loader ever writes to another section's
container. -/
theorem claimC8 :
    (∀ tl dom, dom.timelineList = none → loadTimeline tl dom = dom) ∧
    (∀ tl dom, (loadTimeline tl dom).mediaList = dom.mediaList
      ∧ (loadTimeline tl dom).publicationsList = dom.publicationsList
      ∧ (loadTimeline tl dom).blogList = dom.blogList
      ∧ (loadTimeline tl dom).profileSocials = dom.profileSocials) ∧
    (∀ tl dom, dom.timelineList = none → loadTimelineStandalone tl dom = dom) ∧
    (∀ tl dom, (loadTimelineStandalone tl dom).mediaList = dom.mediaList
      ∧ (loadTimelineStandalone tl dom).publicationsList = dom.publicationsList
      ∧ (loadTimelineStandalone tl dom).blogList = dom.blogList
      ∧ (loadTimelineStandalone tl dom).profileSocials = dom.profileSocials) ∧
    (∀ m dom, dom.mediaList = none → loadMedia m dom = dom) ∧
    (∀ m dom, (loadMedia m dom).timelineList = dom.timelineList
      ∧ (loadMedia m dom).publicationsList = dom.publicationsList
      ∧ (loadMedia m dom).blogList = dom.blogList
      ∧ (loadMedia m dom).profileSocials = dom.profileSocials) ∧
    (∀ p dom, dom.publicationsList = none → loadPublications p dom = dom) ∧
    (∀ p dom, (loadPublications p dom).timelineList = dom.timelineList
      ∧ (loadPublications p dom).mediaList = dom.mediaList
      ∧ (loadPublications p dom).blogList = dom.blogList
      ∧ (loadPublications p dom).profileSocials = dom.profileSocials) ∧
    (∀ fd b dom, dom.blogList = none → loadBlogs fd b dom = dom) ∧
    (∀ fd b dom, (loadBlogs fd b dom).timelineList = dom.timelineList
      ∧ (loadBlogs fd b dom).mediaList = dom.mediaList
      ∧ (loadBlogs fd b dom).publicationsList = dom.publicationsList
      ∧ (loadBlogs fd b dom).profileSocials = dom.profileSocials) ∧
    (∀ cfg dom, dom.profileSocials = none → loadSocialLinks cfg dom = dom) ∧
    (∀ cfg dom, (loadSocialLinks cfg dom).timelineList = dom.timelineList
      ∧ (loadSocialLinks cfg dom).mediaList = dom.mediaList
      ∧ (loadSocialLinks cfg dom).publicationsList = dom.publicationsList
      ∧ (loadSocialLinks cfg dom).blogList = dom.blogList) := by
  refine ⟨?_, ?_, ?_, ?_, ?_, ?_, ?_, ?_, ?_, ?_, ?_, ?_⟩
  · intro tl dom h
    cases tl <;> simp [loadTimeline, h]
  · intro tl dom
    cases h : dom.timelineList <;> cases tl <;> simp [loadTimeline, h]
  · intro tl dom h
    cases tl <;> simp [loadTimelineStandalone, h]
  · intro tl dom
    cases h : dom.timelineList <;> cases tl <;> simp [loadTimelineStandalone, h]
  · intro m dom h
    cases m <;> simp [loadMedia, h]
  · intro m dom
    cases h : dom.mediaList <;> cases m <;> simp [loadMedia, h]
  · intro p dom h
    cases p <;> simp [loadPublications, h]
  · intro p dom
    cases h : dom.publicationsList <;> cases p <;> simp [loadPublications, h]
  · intro fd b dom h
    cases b <;> simp [loadBlogs, h]
  · intro fd b dom
    cases h : dom.blogList <;> cases b <;> simp [loadBlogs, h]
  · intro cfg dom h
    cases cfg with
    | none => simp [loadSocialLinks]
    | some c =>
      cases hc : c.contacts <;> simp [loadSocialLinks, h, hc]
  · intro cfg dom
    cases cfg with
    | none => simp [loadSocialLinks]
    | some c =>
      cases hc : c.contacts <;> cases h : dom.profileSocials <;>
        simp [loadSocialLinks, h, hc]

/-- Witness for C8: the absent-target conjuncts at a concrete page state. -/
theorem claimC8_witness :
    loadTimeline (some []) ⟨none, some "m", some "p", some "b", some "s"⟩
        = ⟨none, some "m", some "p", some "b", some "s"⟩ ∧
    loadMedia (some []) ⟨some "t", none, some "p", some "b", some "s"⟩
        = ⟨some "t", none, some "p", some "b", some "s"⟩ ∧
    loadPublications (some []) ⟨some "t", some "m", none, some "b", some "s"⟩
        = ⟨some "t", some "m", none, some "b", some "s"⟩ ∧
    loadBlogs id (some []) ⟨some "t", some "m", some "p", none, some "s"⟩
        = ⟨some "t", some "m", some "p", none, some "s"⟩ ∧
    loadSocialLinks (some ⟨some []⟩) ⟨some "t", some "m", some "p", some "b", none⟩
        = ⟨some "t", some "m", some "p", some "b", none⟩ :=
  ⟨claimC8.1 (some []) _ rfl,
   claimC8.2.2.2.2.1 (some []) _ rfl,
   claimC8.2.2.2.2.2.2.1 (some []) _ rfl,
   claimC8.2.2.2.2.2.2.2.2.1 id (some []) _ rfl,
   claimC8.2.2.2.2.2.2.2.2.2.2.1 (some ⟨some []⟩) _ rfl⟩

/-!
## Claim C9
-/

/-- C9: the configuration cache is written only with the value derived from
the fixed configuration file, so it never holds two different values over a
run; once a load has succeeded, every later call returns the cached value
without fetching again. -/
theorem claimC9 :
    (∀ (Cfg : Type) (f : Option Cfg) (n : Nat) (c : Cfg),
      loadConfigRun f n = some c → f = some c) ∧
    (∀ (Cfg : Type) (f : Option Cfg) (m n : Nat) (c c' : Cfg),
      loadConfigRun f m = some c → loadConfigRun f n = some c' → c = c') ∧
    (∀ (Cfg : Type) (c : Cfg) (n : Nat), 1 ≤ n → loadConfigRun (some c) n = some c) ∧
    (∀ (Cfg : Type) (f : Option Cfg) (c : Cfg),
      loadConfig f (some c) = (some c, some c, false)) := by
  have key : ∀ (Cfg : Type) (f : Option Cfg) (n : Nat) (c : Cfg),
      loadConfigRun f n = some c → f = some c := by
    intro Cfg f n
    induction n with
    | zero => intro c h; exact absurd h (by simp [loadConfigRun])
    | succ n ih =>
      intro c h
      rw [loadConfigRun] at h
      cases hr : loadConfigRun f n with
      | some c0 =>
        rw [hr] at h
        simp only [loadConfig] at h
        injection h with h
        exact h ▸ ih c0 hr
      | none =>
        rw [hr] at h
        cases hf : f with
        | none => rw [hf] at h; simp [loadConfig] at h
        | some c0 =>
          rw [hf] at h
          simp only [loadConfig] at h
          injection h with h
          rw [h]
  refine ⟨key, ?_, ?_, fun Cfg f c => rfl⟩
  · intro Cfg f m n c c' h1 h2
    have k1 := key Cfg f m c h1
    have k2 := key Cfg f n c' h2
    rw [k1] at k2
    exact Option.some.inj k2
  · intro Cfg c n hn
    match n, hn with
    | n + 1, _ =>
      rw [loadConfigRun]
      cases hr : loadConfigRun (some c) n with
      | none => simp [loadConfig]
      | some c0 =>
        have := key Cfg (some c) n c0 hr
        injection this with this
        subst this
        simp [loadConfig]

/-- Witness for C9: a three-call run over a fixed successfully fetched
configuration. -/
theorem claimC9_witness :
    loadConfigRun (some 7) 3 = some 7 ∧
    loadConfig (some 7) (some (7 : Nat)) = (some 7, some 7, false) :=
  ⟨claimC9.2.2.1 Nat 7 3 (by decide), claimC9.2.2.2 Nat (some 7) 7⟩

/-!
## Claim C1
-/

unseal replaceLinks replaceBold replaceItalic in
/-- C1: `formatInlineMarkdown` applies exactly three regex substitutions in
the fixed order links → bold → italic; `[t](u)` becomes
`<a href="u" target="_blank">t</a>`, `**t**` becomes `<strong>t</strong>`,
`*t*` becomes `<em>t</em>`; a string with no markers is returned unchanged;
`"**a**"` gives `"<strong>a</strong>"` and `"[a](http://b)"` gives a link
carrying `target="_blank"`. -/
theorem claimC1 :
    (∀ s : String,
      formatInlineMarkdown s = ⟨replaceItalic (replaceBold (replaceLinks s.data))⟩) ∧
    (∀ t u : List Char, t ≠ [] → u ≠ [] → (∀ c ∈ t, c ≠ ']') → (∀ c ∈ u, c ≠ ')') →
      replaceLinks ('[' :: (t ++ ']' :: '(' :: (u ++ [')'])))
        = "<a href=\"".data ++ u ++ "\" target=\"_blank\">".data ++ t ++ "</a>".data) ∧
    (∀ t : List Char, t ≠ [] → (∀ c ∈ t, c ≠ '*') →
      replaceBold ('*' :: '*' :: (t ++ ['*', '*']))
        = "<strong>".data ++ t ++ "</strong>".data) ∧
    (∀ t : List Char, t ≠ [] → (∀ c ∈ t, c ≠ '*') →
      replaceItalic ('*' :: (t ++ ['*'])) = "<em>".data ++ t ++ "</em>".data) ∧
    (∀ s : String, '*' ∉ s.data → '[' ∉ s.data → formatInlineMarkdown s = s) ∧
    formatInlineMarkdown "**a**" = "<strong>a</strong>" ∧
    formatInlineMarkdown "[a](http://b)" = "<a href=\"http://b\" target=\"_blank\">a</a>" := by
  refine ⟨fun s => rfl, ?_, ?_, ?_, ?_, by decide, by decide⟩
  · intro t u ht hu htc huc
    rw [replaceLinks_anchor t u [] ht hu htc huc, replaceLinks_nil]
    simp
  · intro t ht hstar
    rw [replaceBold_strong t [] ht hstar, replaceBold_nil]
    simp
  · intro t ht hstar
    rw [replaceItalic_em t [] ht hstar, replaceItalic_nil]
    simp
  · intro s hstar hbr
    show (⟨replaceItalic (replaceBold (replaceLinks s.data))⟩ : String) = s
    rw [replaceLinks_eq_self _ hbr, replaceBold_eq_self _ hstar,
      replaceItalic_eq_self _ hstar]

/-- Witness for C1: the hypothesis-bearing conjuncts applied at concrete
inputs. -/
theorem claimC1_witness :
    replaceLinks ('[' :: ("a".data ++ ']' :: '(' :: ("b".data ++ [')'])))
      = "<a href=\"".data ++ "b".data ++ "\" target=\"_blank\">".data
          ++ "a".data ++ "</a>".data ∧
    replaceBold ('*' :: '*' :: ("a".data ++ ['*', '*']))
      = "<strong>".data ++ "a".data ++ "</strong>".data ∧
    replaceItalic ('*' :: ("a".data ++ ['*'])) = "<em>".data ++ "a".data ++ "</em>".data ∧
    formatInlineMarkdown "plain text" = "plain text" :=
  ⟨claimC1.2.1 "a".data "b".data (by decide) (by decide) (by decide) (by decide),
   claimC1.2.2.1 "a".data (by decide) (by decide),
   claimC1.2.2.2.1 "a".data (by decide) (by decide),
   claimC1.2.2.2.2.1 "plain text" (by decide) (by decide)⟩

/-!
## Claim C7
-/

unseal replaceLinks replaceBold replaceItalic in
/-- C7: the inline formatter is not idempotent: on `"[a[b](u)](v)"` the first
pass leaves the unmatched `](v)` tail and the `[` inside the emitted anchor
text, and a second pass converts them into a second anchor, so applying the
formatter twice differs from applying it once. -/
theorem claimC7 :
    formatInlineMarkdown "[a[b](u)](v)"
        = "<a href=\"u\" target=\"_blank\">a[b</a>](v)" ∧
    formatInlineMarkdown (formatInlineMarkdown "[a[b](u)](v)")
        = "<a href=\"u\" target=\"_blank\">a<a href=\"v\" target=\"_blank\">b</a></a>" ∧
    (formatInlineMarkdown (formatInlineMarkdown "[a[b](u)](v)")
        == formatInlineMarkdown "[a[b](u)](v)") = false := by
  refine ⟨by decide, by decide, by decide⟩

end Site
